import Mathlib

/-!
Shallow embedding of the `revision_pipeline` package (block.py, helpers.py,
intermediate.py, pipeline.py) and proofs about it.

Python dictionaries are modelled as insertion-ordered association lists with
unique keys: writing an existing key updates the entry in place, writing a new
key appends it, deletion removes the entry.  Exceptions are modelled with
`Option`/`Sum`: a `none` result of a helper stands for the exception the
corresponding Python expression raises; the revision applier catches them and
tags the revision `error`, keeping the partially mutated state, exactly as the
`try`/`except` in `_parse_diff` does.
-/

set_option maxRecDepth 4000

namespace RevisionPipeline

/-- Insertion-ordered string-keyed map, modelling a Python `dict`. -/
abbrev Dict (α : Type) := List (String × α)

/-- `d[k]` lookup: first entry with the key. -/
def dget? {α : Type} (m : Dict α) (k : String) : Option α :=
  match m with
  | [] => none
  | (k₀, v₀) :: rest => if k₀ = k then some v₀ else dget? rest k

/-- `d[k] = v`: update in place when the key exists, append otherwise. -/
def dset {α : Type} (m : Dict α) (k : String) (v : α) : Dict α :=
  match m with
  | [] => [(k, v)]
  | (k₀, v₀) :: rest => if k₀ = k then (k, v) :: rest else (k₀, v₀) :: dset rest k v

/-- `del d[k]`: drop the entry.  (Reachable stores never hold duplicate keys,
so erasing every occurrence of the key coincides with deleting the single
entry a Python `dict` holds.) -/
def ddel {α : Type} (m : Dict α) (k : String) : Dict α :=
  match m with
  | [] => []
  | (k₀, v₀) :: rest => if k₀ = k then ddel rest k else (k₀, v₀) :: ddel rest k

/-! ### Python string primitives -/

/-- The characters `str.strip()` removes (ASCII whitespace). -/
def pyWs (c : Char) : Bool :=
  c = ' ' || c = '\t' || c = '\n' || c = '\x0d' || c = Char.ofNat 11 || c = Char.ofNat 12

/-- Python `s.strip()`. -/
def pyStrip (s : String) : String :=
  String.mk (((s.data.dropWhile pyWs).reverse.dropWhile pyWs).reverse)

/-- Python `s.strip(" ")`: strips space characters only. -/
def pyStripSpaces (s : String) : String :=
  String.mk (((s.data.dropWhile (· = ' ')).reverse.dropWhile (· = ' ')).reverse)

/-- Python `s[:n]` for `n ≥ 0`. -/
def pySliceTo (s : String) (n : Nat) : String := String.mk (s.data.take n)

/-- Python `s[-n:]` for `n > 0`: the last `min n len` characters. -/
def pySliceLast (s : String) (n : Nat) : String :=
  String.mk (s.data.drop (s.data.length - n))

/-- UTF-8 encoding of one code point (`encode("utf-8")`). -/
def utf8Bytes (c : Char) : List Nat :=
  let n := c.toNat
  if n < 128 then [n]
  else if n < 2048 then [192 + n / 64, 128 + n % 64]
  else if n < 65536 then [224 + n / 4096, 128 + (n / 64) % 64, 128 + n % 64]
  else [240 + n / 262144, 128 + (n / 4096) % 64, 128 + (n / 64) % 64, 128 + n % 64]

/-- UTF-8 bytes of a string. -/
def strUtf8 (s : String) : List Nat := (s.data.map utf8Bytes).flatten

/-! ### MD5 (`hashlib.md5(...).hexdigest()`), on byte lists, 32-bit words as `Nat mod 2^32` -/

def m32 : Nat := 4294967296

/-- 32-bit left rotation (operands below `2^32`). -/
def rotl32 (x c : Nat) : Nat := ((x <<< c) % m32) + (x >>> (32 - c))

def md5K : List Nat :=
  [0xd76aa478, 0xe8c7b756, 0x242070db, 0xc1bdceee, 0xf57c0faf, 0x4787c62a, 0xa8304613, 0xfd469501,
   0x698098d8, 0x8b44f7af, 0xffff5bb1, 0x895cd7be, 0x6b901122, 0xfd987193, 0xa679438e, 0x49b40821,
   0xf61e2562, 0xc040b340, 0x265e5a51, 0xe9b6c7aa, 0xd62f105d, 0x02441453, 0xd8a1e681, 0xe7d3fbc8,
   0x21e1cde6, 0xc33707d6, 0xf4d50d87, 0x455a14ed, 0xa9e3e905, 0xfcefa3f8, 0x676f02d9, 0x8d2a4c8a,
   0xfffa3942, 0x8771f681, 0x6d9d6122, 0xfde5380c, 0xa4beea44, 0x4bdecfa9, 0xf6bb4b60, 0xbebfbc70,
   0x289b7ec6, 0xeaa127fa, 0xd4ef3085, 0x04881d05, 0xd9d4d039, 0xe6db99e5, 0x1fa27cf8, 0xc4ac5665,
   0xf4292244, 0x432aff97, 0xab9423a7, 0xfc93a039, 0x655b59c3, 0x8f0ccc92, 0xffeff47d, 0x85845dd1,
   0x6fa87e4f, 0xfe2ce6e0, 0xa3014314, 0x4e0811a1, 0xf7537e82, 0xbd3af235, 0x2ad7d2bb, 0xeb86d391]

def md5S : List Nat :=
  [7, 12, 17, 22, 7, 12, 17, 22, 7, 12, 17, 22, 7, 12, 17, 22,
   5, 9, 14, 20, 5, 9, 14, 20, 5, 9, 14, 20, 5, 9, 14, 20,
   4, 11, 16, 23, 4, 11, 16, 23, 4, 11, 16, 23, 4, 11, 16, 23,
   6, 10, 15, 21, 6, 10, 15, 21, 6, 10, 15, 21, 6, 10, 15, 21]

def md5F (i b c d : Nat) : Nat :=
  if i < 16 then (b &&& c) ||| ((b ^^^ 0xffffffff) &&& d)
  else if i < 32 then (d &&& b) ||| ((d ^^^ 0xffffffff) &&& c)
  else if i < 48 then b ^^^ c ^^^ d
  else c ^^^ (b ||| (d ^^^ 0xffffffff))

def md5G (i : Nat) : Nat :=
  if i < 16 then i
  else if i < 32 then (5 * i + 1) % 16
  else if i < 48 then (3 * i + 5) % 16
  else (7 * i) % 16

def md5Round (M : List Nat) (st : Nat × Nat × Nat × Nat) (i : Nat) : Nat × Nat × Nat × Nat :=
  let f := (st.1 + md5F i st.2.1 st.2.2.1 st.2.2.2 + md5K.getD i 0 + M.getD (md5G i) 0) % m32
  (st.2.2.2, (st.2.1 + rotl32 f (md5S.getD i 0)) % m32, st.2.1, st.2.2.1)

/-- Little-endian 32-bit words of a 64-byte chunk. -/
def toWords : List Nat → List Nat
  | b0 :: b1 :: b2 :: b3 :: rest => (b0 + 256 * b1 + 65536 * b2 + 16777216 * b3) :: toWords rest
  | _ => []

def md5Chunk (st : Nat × Nat × Nat × Nat) (chunk : List Nat) : Nat × Nat × Nat × Nat :=
  let M := toWords chunk
  let r := (List.range 64).foldl (md5Round M) st
  ((st.1 + r.1) % m32, (st.2.1 + r.2.1) % m32, (st.2.2.1 + r.2.2.1) % m32, (st.2.2.2 + r.2.2.2) % m32)

def chunk64go : Nat → List Nat → List (List Nat)
  | _, [] => []
  | 0, _ => []
  | fuel + 1, l => l.take 64 :: chunk64go fuel (l.drop 64)

def chunk64 (l : List Nat) : List (List Nat) := chunk64go l.length l

/-- Little-endian byte expansion, `n` bytes wide. -/
def leBytes (width n : Nat) : List Nat := (List.range width).map fun i => (n >>> (8 * i)) % 256

/-- MD5 padding: `0x80`, zeros to 56 mod 64, 8-byte little-endian bit length. -/
def md5Pad (msg : List Nat) : List Nat :=
  msg ++ [128] ++ List.replicate ((119 - (msg.length % 64)) % 64) 0
      ++ leBytes 8 ((8 * msg.length) % (2 ^ 64))

def md5Digest (msg : List Nat) : List Nat :=
  let r := (chunk64 (md5Pad msg)).foldl md5Chunk (0x67452301, 0xefcdab89, 0x98badcfe, 0x10325476)
  leBytes 4 r.1 ++ leBytes 4 r.2.1 ++ leBytes 4 r.2.2.1 ++ leBytes 4 r.2.2.2

def hexDigit (n : Nat) : Char := if n < 10 then Char.ofNat (48 + n) else Char.ofNat (87 + n)

def byteHex (b : Nat) : List Char := [hexDigit (b / 16), hexDigit (b % 16)]

def md5Hex (msg : List Nat) : String := String.mk ((msg |> md5Digest |>.map byteHex).flatten)

/-- `helpers.compute_md5`: md5 hex digest of the stripped, UTF-8-encoded text. -/
def compute_md5 (s : String) : String := md5Hex (strUtf8 (pyStrip s))

/-! ### helpers.py -/

/-- Loop of `compute_text_depth`: `d = 0; while text[d] == ":": d += 1; return d`.
`none` models the `IndexError` raised when the index runs past the end, i.e. on
the empty string and on strings made only of colons. -/
def text_depth_go : List Char → Nat → Option Nat
  | [], _ => none
  | c :: rest, acc => if c = ':' then text_depth_go rest (acc + 1) else some acc

/-- `helpers.compute_text_depth`. -/
def compute_text_depth (text : String) : Option Nat := text_depth_go text.data 0

/-- `helpers.is_new_section_text`:
`(t[:3] == "===" and t[-3:] == "===") or (t[:2] == "==" and t[-2:] == "==")`. -/
def is_new_section_text (added_text : String) : Bool :=
  (pySliceTo added_text 3 = "===" && pySliceLast added_text 3 = "===")
    || (pySliceTo added_text 2 = "==" && pySliceLast added_text 2 = "==")

/-- One `<td>` cell of a parsed diff row: its class list, its `get_text()`, and
the `href`/`name` attributes of an `<a>` anchor inside it when one exists
(`all_td[i].a`). -/
structure Td where
  classes : List String
  text : String
  aHref : Option String
  aName : Option String
deriving DecidableEq, Repr

instance : Inhabited Td := ⟨⟨[], "", none, none⟩⟩

/-- `all_td[i]`: cell access (the classifiers only index within the length
they have checked). -/
def cell (tds : List Td) (i : Nat) : Td := tds.getD i default

/-- `helpers.is_unedited_tr`: `len(all_td) == 4 and all_td[0] == all_td[2]`.
BeautifulSoup compares the two tags structurally, so the test is full equality
of cells 0 and 2, not of the texts of cells 1 and 3. -/
def is_unedited_tr (all_td : List Td) : Bool :=
  all_td.length = 4 && (cell all_td 0) = (cell all_td 2)

/-- `td["class"][0]`: `none` models the `KeyError`/`IndexError` when the cell
has no class. -/
def tdClass0 (td : Td) : Option String := td.classes.head?

/-- `helpers.is_new_content_tr`; `none` models an exception raised while
reading a class attribute. -/
def is_new_content_tr (all_td : List Td) : Option Bool :=
  if all_td.length = 3 then do
    let c0 ← tdClass0 (cell all_td 0)
    if c0 = "diff-empty" then do
      let c2 ← tdClass0 (cell all_td 2)
      return c2 = "diff-addedline"
    else return false
  else return false

/-- `helpers.is_removal_tr`. -/
def is_removal_tr (all_td : List Td) : Option Bool :=
  if all_td.length = 3 then do
    let c1 ← tdClass0 (cell all_td 1)
    if c1 = "diff-deletedline" then do
      let c2 ← tdClass0 (cell all_td 2)
      return c2 = "diff-empty"
    else return false
  else return false

/-- `helpers.is_modification_tr`. -/
def is_modification_tr (all_td : List Td) : Option Bool :=
  if all_td.length = 4 then do
    let c1 ← tdClass0 (cell all_td 1)
    if c1 = "diff-deletedline" then do
      let c3 ← tdClass0 (cell all_td 3)
      return c3 = "diff-addedline"
    else return false
  else return false

/-- `helpers.is_line_number_tr`. -/
def is_line_number_tr (all_td : List Td) : Option Bool :=
  if all_td.length = 2 then do
    let c0 ← tdClass0 (cell all_td 0)
    if c0 = "diff-lineno" then do
      let c1 ← tdClass0 (cell all_td 1)
      return c1 = "diff-lineno"
    else return false
  else return false

/-- Modelled from the spec: `helpers.is_moved_right_tr` is called by
`_parse_diff` but is absent from the sources.  Per the spec (section 4.2) a
moved-right row is a new-content row that additionally carries an anchor
linking to the paired left-side paragraph (the applier reads that link as
`all_td[1].a["href"]`). -/
def is_moved_right_tr (all_td : List Td) : Bool :=
  all_td.length = 3 && (cell all_td 1).aHref.isSome

/-- Modelled from the spec: `helpers.is_moved_left_tr` is called by
`_parse_diff` but is absent from the sources.  Per the spec (section 4.2) a
moved-left row is a removal row that additionally carries the anchor that the
paired right-hand side links to. -/
def is_moved_left_tr (all_td : List Td) : Bool :=
  all_td.length = 3 && (cell all_td 1).aName.isSome

/-- `helpers.string_of_seg`: `" ".join(seg)`. -/
def string_of_seg (seg : List String) : String := String.intercalate " " seg

/-- Python `s.split(" ")`, written structurally (the current fragment is
carried reversed). -/
def splitSpacesGo : List Char → List Char → List String
  | [], cur => [String.mk cur.reverse]
  | c :: rest, cur =>
    if c = ' ' then String.mk cur.reverse :: splitSpacesGo rest []
    else splitSpacesGo rest (c :: cur)

/-- Python `s.split(" ")`. -/
def pySplitSpace (s : String) : List String := splitSpacesGo s.data []

/-! ### block.py and the revision metadata -/

/-- A revision id slot: the sentinel string `"unknown"` or a real id. -/
inductive RId where
  | unknown : RId
  | rid : Nat → RId
deriving DecidableEq, Repr

/-- `Block` from block.py.  `__init__` gives `text`/`timestamp`/`user`/
`ingested`/`revision_ids`/`reply_chain` the value `None` (the `none` of the
corresponding `Option`) and `is_followed = False`.  The attributes `is_header`
and `root_hash` are *not* set by `__init__`; they exist only on blocks whose
construction path assigned them, so for these two fields `none` models the
absent attribute (reading it raises `AttributeError`), and for `root_hash` the
assigned value may itself be Python `None` (an absent section), hence the
doubled `Option`. -/
structure Block where
  text : Option String := none
  timestamp : Option String := none
  user : Option String := none
  ingested : Option Bool := none
  revision_ids : Option (List RId) := none
  reply_chain : Option (List String) := none
  is_followed : Bool := false
  is_header : Option Bool := none
  root_hash : Option (Option String) := none
deriving DecidableEq, Repr

/-- One revision's metadata as consumed by `_parse_diff`
(`revid`, `timestamp`, and `user`, where a suppressed user is an absent key so
that `revisions[1].get("user", "userhidden")` substitutes the sentinel). -/
structure Revision where
  revid : Nat
  timestamp : String
  user : Option String
deriving DecidableEq, Repr

/-- `revisions[1].get("user", "userhidden")`. -/
def Revision.userOrHidden (r : Revision) : String := r.user.getD "userhidden"

/-- The `Intermediate` accumulator: `hash_lookup`, `blocks` and the revision
log `(revid, behavior, timestamp)`. -/
structure Intermediate where
  hash_lookup : Dict String
  blocks : Dict Block
  revisions : List (Nat × List String × String)
deriving DecidableEq, Repr

/-- `Intermediate()`: the empty accumulator. -/
def emptyIntermediate : Intermediate := ⟨[], [], []⟩

/-! ### intermediate.py -/

/-- The loop `while self.hash_lookup[h] != h: h = self.hash_lookup[h]`, with
explicit fuel.  `some (some h*)` is normal termination at the fixed point
`h*`; `some none` is the `KeyError` raised when `h` is not a key; `none` is
exhausted fuel (only reachable when the alias map has a cycle, where the
Python loop would not terminate). -/
def resolveFuel (m : Dict String) : Nat → String → Option (Option String)
  | 0, _ => none
  | fuel + 1, h =>
    match dget? m h with
    | none => some none
    | some h' => if h' = h then some (some h) else resolveFuel m fuel h'

/-- `Intermediate.find_ultimate_hash`.  Fuel `|m| + 1` suffices for every walk
that terminates, and the invariants proved below show the walk always
terminates on reachable states; `none` models the `KeyError` on a missing
key. -/
def find_ultimate_hash (acc : Intermediate) (h : String) : Option String :=
  (resolveFuel acc.hash_lookup (acc.hash_lookup.length + 1) h).join

/-- `Intermediate.compute_reply_hash`.  The source's walk is dead code: its
loop body reads `reply_block.reply_to`, an attribute `Block` never defines, so
the first iteration raises `AttributeError`, the bare `except` returns `None`;
and when the loop guard `reply_to_depth > this_depth` is already false the
function falls off its end, which also returns `None`.  The outer `none`
models the uncaught `TypeError` of comparing `this_depth` with a `None`
depth. -/
def compute_reply_hash (_acc : Intermediate) (reply_to_hash : Option String)
    (reply_to_depth : Option Int) (this_depth : Int) : Option (Option String) :=
  if this_depth = 0 then some none
  else
    match reply_to_depth with
    | none => none
    | some d =>
      if this_depth > d then some reply_to_hash
      else if d > this_depth then some none
      else some none

/-- Body of `Intermediate.segment_contiguous_blocks` from the second chain
element on; `none` models an uncaught `KeyError` from `find_ultimate_hash` or
the `blocks` lookup. -/
def segment_go (acc : Intermediate) : List String → String → Option String →
    List String → List (List String) → Option (List (List String))
  | [], _, _, contig, res => some (res ++ [contig])
  | b :: rest, _lastH, lastUser, contig, res => do
    let thisH ← find_ultimate_hash acc b
    let blk ← dget? acc.blocks thisH
    if blk.user = lastUser then
      segment_go acc rest thisH blk.user (contig ++ [thisH]) res
    else
      segment_go acc rest thisH blk.user [thisH] (res ++ [contig])

/-- `Intermediate.segment_contiguous_blocks`.  A `none` result models the
exception the Python body raises (empty chain: `IndexError`; unknown hash:
`KeyError`). -/
def segment_contiguous_blocks (acc : Intermediate) (reply_chain : List String) :
    Option (List (List String)) :=
  match reply_chain with
  | [] => none
  | [b] => do
    let h ← find_ultimate_hash acc b
    return [[h]]
  | b :: rest => do
    let lastH ← find_ultimate_hash acc b
    let blk ← dget? acc.blocks lastH
    segment_go acc rest lastH blk.user [lastH] []

/-- `Intermediate.write_to_disk`.  The body asserts `_filepath` is set, builds
the three-field document, and then calls `json.dump(obj)` without the file
argument, which raises `TypeError`; nothing is ever written (the block values
are also plain objects `json` cannot serialize).  A `some` result would be the
document written to disk; the function always returns `none`. -/
def write_to_disk (filepath : Option String) (_acc : Intermediate) :
    Option (Dict String × Dict Block × List (Nat × List String × String)) :=
  match filepath with
  | none => none
  | some _ => none

/-! ### pipeline.py: the diff applier `_parse_diff`

The per-diff local state of the row loop.  `hashed_text` is reassigned before
every use inside each row, so it is not loop-carried and is omitted;
`block_depth` *is* loop-carried (a section-heading row copies its stale value
into `last_depth`).  A row step returns `Sum.inl` with the new accumulator and
locals, or `Sum.inr` with the partially mutated accumulator when the row
raises: `_parse_diff` catches the exception, keeps the state, and tags the
revision `["error"]`. -/

structure Locals where
  block_depth : Option Int
  last_hash : Option String
  last_depth : Option Int
  last_block_was_ingested : Bool
  curr_section_hash : Option String
  behavior : List String
deriving DecidableEq, Repr

/-- Initial locals of `_parse_diff` (`None, None, None, -1`, `False`, `None`,
`[]`). -/
def initLocals : Locals :=
  { block_depth := none, last_hash := none, last_depth := some (-1)
    last_block_was_ingested := false, curr_section_hash := none, behavior := [] }

/-- The parsed diff document: the `<tr>` rows and the anchor-name resolution
`soup.find("a", dict of name n).parent.get_text()` used by moved-right rows
(`none` when no such anchor exists, where the Python would raise
`AttributeError` on `.parent`). -/
structure Diff where
  rows : List (List Td)
  anchorText : String → Option String

/-- The unedited-row branch of `_parse_diff` (pipeline.py lines 458-486). -/
def stepUnedited (prev : Revision) (tds : List Td) (acc : Intermediate) (L : Locals) :
    Sum (Intermediate × Locals) Intermediate :=
  if (cell tds 1).text ≠ (cell tds 3).text then .inr acc
  else
    let unedited_text := (cell tds 1).text
    if (pyStripSpaces unedited_text).length > 0 then
      let hashed_text := compute_md5 unedited_text
      match compute_text_depth unedited_text with
      | none => .inr acc
      | some bd =>
        match dget? acc.blocks hashed_text with
        | none =>
          let isHdr := is_new_section_text unedited_text
          let blk : Block :=
            { text := some unedited_text, timestamp := some prev.timestamp, user := none
              ingested := some false, revision_ids := some [RId.unknown]
              reply_chain := some [hashed_text], is_followed := false, is_header := none
              root_hash := if isHdr then some (some hashed_text) else none }
          let acc' := { acc with
            blocks := dset acc.blocks hashed_text blk
            hash_lookup := dset acc.hash_lookup hashed_text hashed_text }
          .inl (acc', { L with block_depth := some (Int.ofNat bd)
                               last_hash := some hashed_text
                               last_depth := some (Int.ofNat bd)
                               last_block_was_ingested := false
                               curr_section_hash :=
                                 if isHdr then some hashed_text else L.curr_section_hash })
        | some b =>
          match b.root_hash with
          | none => .inr acc
          | some rh =>
            .inl (acc, { L with block_depth := some (Int.ofNat bd)
                                last_hash := some hashed_text
                                last_depth := some (Int.ofNat bd)
                                last_block_was_ingested := false
                                curr_section_hash := rh })
    else .inl (acc, L)

/-- Lines 554-558 of `_parse_diff`, shared by the moved and regular added
paths: store the block, self-alias its hash, update the `last_*` locals. -/
def finishAdded (hashed_text : String) (blk : Block) (acc : Intermediate) (L : Locals) :
    Sum (Intermediate × Locals) Intermediate :=
  .inl ({ acc with blocks := dset acc.blocks hashed_text blk
                   hash_lookup := dset acc.hash_lookup hashed_text hashed_text },
        { L with last_hash := some hashed_text, last_depth := L.block_depth
                 last_block_was_ingested := true })

/-- The new-content branch of `_parse_diff` (lines 488-560). -/
def stepAdded (curr : Revision) (anchors : String → Option String) (tds : List Td)
    (acc : Intermediate) (L : Locals) : Sum (Intermediate × Locals) Intermediate :=
  let added_text := (cell tds 2).text
  let hashed_text := compute_md5 added_text
  if (pyStripSpaces added_text).length > 0 then
    if is_moved_right_tr tds then
      let L1 := { L with behavior := L.behavior ++ ["move"] }
      match (cell tds 1).aHref with
      | none => .inr acc
      | some href =>
        match anchors (href.drop 1) with
        | none => .inr acc
        | some old_text =>
          let old_hash := compute_md5 old_text
          match dget? acc.blocks old_hash with
          | some b0 =>
            let popped := ddel acc.blocks old_hash
            let b1 := if old_hash ≠ hashed_text then
                        { b0 with text := some added_text, user := some curr.userOrHidden }
                      else b0
            let b2 := { b1 with timestamp := some curr.timestamp }
            match b2.revision_ids with
            | none => .inr { acc with blocks := popped }
            | some rids =>
              let b3 := { b2 with revision_ids := some (rids ++ [RId.rid curr.revid])
                                  root_hash := some L1.curr_section_hash }
              finishAdded hashed_text b3
                { acc with blocks := popped
                           hash_lookup := dset acc.hash_lookup old_hash hashed_text } L1
          | none =>
            let blk : Block :=
              { text := some added_text, timestamp := some curr.timestamp
                user := some curr.userOrHidden, ingested := some false
                revision_ids := some [RId.unknown, RId.rid curr.revid]
                reply_chain := some [hashed_text], root_hash := some L1.curr_section_hash }
            finishAdded hashed_text blk acc L1
    else
      let base : Block :=
        { text := some added_text, timestamp := some curr.timestamp
          user := some curr.userOrHidden, ingested := some true
          revision_ids := some [RId.rid curr.revid] }
      if is_new_section_text added_text then
        let L1 := { L with behavior := L.behavior ++ ["create_section"]
                           curr_section_hash := some hashed_text }
        finishAdded hashed_text
          { base with reply_chain := some [hashed_text], is_header := some true
                      root_hash := some (some hashed_text) } acc L1
      else
        let L1 := { L with behavior := L.behavior ++ ["add_comment"] }
        match compute_text_depth added_text with
        | none => .inr acc
        | some bd =>
          let L2 := { L1 with block_depth := some (Int.ofNat bd) }
          if L.last_block_was_ingested then
            match L.last_hash with
            | none => .inr acc
            | some lh =>
              match dget? acc.blocks lh with
              | none => .inr acc
              | some lb =>
                match lb.reply_chain with
                | none => .inr acc
                | some ch =>
                  finishAdded hashed_text
                    { base with reply_chain := some (ch ++ [hashed_text])
                                is_header := some false
                                root_hash := some L2.curr_section_hash }
                    { acc with blocks := dset acc.blocks lh { lb with is_followed := true } }
                    L2
          else
            match compute_reply_hash acc L.last_hash L.last_depth (Int.ofNat bd) with
            | none => .inr acc
            | some (some rth) =>
              match dget? acc.blocks rth with
              | none => .inr acc
              | some rb =>
                match rb.reply_chain with
                | none => .inr acc
                | some ch =>
                  finishAdded hashed_text
                    { base with reply_chain := some (ch ++ [hashed_text])
                                is_header := some false
                                root_hash := some L2.curr_section_hash } acc L2
            | some none =>
              finishAdded hashed_text
                { base with reply_chain := some [hashed_text], is_header := some false
                            root_hash := some L2.curr_section_hash } acc L2
  else .inl (acc, L)

/-- The removal branch of `_parse_diff` (lines 563-575). -/
def stepRemoval (tds : List Td) (acc : Intermediate) (L : Locals) :
    Sum (Intermediate × Locals) Intermediate :=
  let removed_text := (cell tds 1).text
  if removed_text.length > 0 then
    let hashed_removal := compute_md5 removed_text
    if is_moved_left_tr tds then .inl (acc, { L with behavior := L.behavior ++ ["removal"] })
    else
      match dget? acc.hash_lookup hashed_removal with
      | none => .inl (acc, L)
      | some _ =>
        let acc1 := { acc with hash_lookup := ddel acc.hash_lookup hashed_removal }
        match dget? acc1.blocks hashed_removal with
        | none => .inl (acc1, L)
        | some _ => .inl ({ acc1 with blocks := ddel acc1.blocks hashed_removal }, L)
  else .inl (acc, L)

/-- The modification branch of `_parse_diff` (lines 577-625). -/
def stepModification (curr : Revision) (tds : List Td) (acc : Intermediate) (L : Locals) :
    Sum (Intermediate × Locals) Intermediate :=
  let old_text := (cell tds 1).text
  let old_hash := compute_md5 old_text
  let new_text := (cell tds 3).text
  let new_hash := compute_md5 new_text
  let L0 := { L with behavior := L.behavior ++ ["modify"] }
  match dget? acc.blocks old_hash with
  | some b0 =>
    match dget? acc.hash_lookup old_hash with
    | none => .inr acc
    | some _ =>
      let popped := ddel acc.blocks old_hash
      let b1 := { b0 with text := some new_text, timestamp := some curr.timestamp
                          user := some curr.userOrHidden }
      match b1.revision_ids with
      | none => .inr { acc with blocks := popped }
      | some rids =>
        let b2 := { b1 with revision_ids := some (rids ++ [RId.rid curr.revid])
                            ingested := some true }
        let acc1 := { acc with
          blocks := dset popped new_hash b2
          hash_lookup := dset (dset acc.hash_lookup new_hash new_hash) old_hash new_hash }
        match compute_text_depth new_text with
        | none => .inr acc1
        | some bd =>
          let L1 := { L0 with block_depth := some (Int.ofNat bd) }
          if L.last_block_was_ingested then
            match L.last_hash with
            | none => .inr acc1
            | some lh =>
              match dget? acc1.blocks lh with
              | none => .inr acc1
              | some lb =>
                match lb.reply_chain with
                | none => .inr acc1
                | some ch =>
                  let acc2 := { acc1 with
                    blocks := dset acc1.blocks new_hash { b2 with reply_chain := some (ch ++ [new_hash]) } }
                  match dget? acc2.blocks lh with
                  | none => .inr acc2
                  | some lb2 =>
                    .inl ({ acc2 with blocks := dset acc2.blocks lh { lb2 with is_followed := true } },
                          { L1 with last_hash := some new_hash, last_depth := some (Int.ofNat bd)
                                    last_block_was_ingested := true })
          else
            match compute_reply_hash acc1 L.last_hash L.last_depth (Int.ofNat bd) with
            | none => .inr acc1
            | some (some rth) =>
              match dget? acc1.blocks rth with
              | none => .inr acc1
              | some rb =>
                match rb.reply_chain with
                | none => .inr acc1
                | some ch =>
                  .inl ({ acc1 with
                          blocks := dset acc1.blocks new_hash
                            { b2 with reply_chain := some (ch ++ [new_hash]) } },
                        { L1 with last_hash := some new_hash, last_depth := some (Int.ofNat bd)
                                  last_block_was_ingested := true })
            | some none =>
              .inl ({ acc1 with
                      blocks := dset acc1.blocks new_hash { b2 with reply_chain := some [new_hash] } },
                    { L1 with last_hash := some new_hash, last_depth := some (Int.ofNat bd)
                              last_block_was_ingested := true })
  | none =>
    let blk : Block :=
      { text := some new_text, timestamp := some curr.timestamp
        user := some curr.userOrHidden, ingested := some false
        revision_ids := some [RId.unknown, RId.rid curr.revid]
        reply_chain := some [new_hash], root_hash := some L.curr_section_hash }
    let acc1 := { acc with blocks := dset acc.blocks new_hash blk
                           hash_lookup := dset acc.hash_lookup new_hash new_hash }
    match compute_text_depth new_text with
    | none => .inr acc1
    | some bd =>
      .inl (acc1, { L0 with last_hash := some new_hash, last_depth := some (Int.ofNat bd)
                            last_block_was_ingested := true })

/-- One iteration of the row loop of `_parse_diff`: the `if`/`elif` dispatch
over the row classifiers; the final `else` raises
`Exception("block has unknown behavior")`. -/
def stepRow (prev curr : Revision) (anchors : String → Option String) (tds : List Td)
    (acc : Intermediate) (L : Locals) : Sum (Intermediate × Locals) Intermediate :=
  if is_unedited_tr tds then stepUnedited prev tds acc L
  else match is_new_content_tr tds with
  | none => .inr acc
  | some true => stepAdded curr anchors tds acc L
  | some false =>
    match is_removal_tr tds with
    | none => .inr acc
    | some true => stepRemoval tds acc L
    | some false =>
      match is_modification_tr tds with
      | none => .inr acc
      | some true => stepModification curr tds acc L
      | some false =>
        match is_line_number_tr tds with
        | none => .inr acc
        | some true => .inl (acc, L)
        | some false => .inr acc

/-- The row loop of `_parse_diff`; an exception aborts the loop and keeps the
partially mutated accumulator. -/
def runRows (prev curr : Revision) (anchors : String → Option String) :
    List (List Td) → Intermediate → Locals → Sum (Intermediate × Locals) Intermediate
  | [], acc, L => .inl (acc, L)
  | tds :: rest, acc, L =>
    match stepRow prev curr anchors tds acc L with
    | .inl (acc', L') => runRows prev curr anchors rest acc' L'
    | .inr accErr => .inr accErr

/-- `_parse_diff`: process the diff rows (dropping the table-header row, as
`soup.find_all("tr")[1:]` does) and always append the revision-log entry; on
an exception the behavior list becomes `["error"]` and the partial state is
kept. -/
def parse_diff (prev curr : Revision) (d : Diff) (acc : Intermediate) : Intermediate :=
  match runRows prev curr d.anchorText (d.rows.drop 1) acc initLocals with
  | .inl (acc', L) =>
    { acc' with revisions := acc'.revisions ++ [(curr.revid, L.behavior, curr.timestamp)] }
  | .inr accErr =>
    { accErr with revisions := accErr.revisions ++ [(curr.revid, ["error"], curr.timestamp)] }

/-- The accumulator carried by a row-step result (the new state on success,
the partially mutated state on an exception). -/
def stateOf : Sum (Intermediate × Locals) Intermediate → Intermediate
  | .inl p => p.1
  | .inr a => a

/-- The locals carried by a successful row-step result (`initLocals` on an
exception, where the row loop stops). -/
def localsOf : Sum (Intermediate × Locals) Intermediate → Locals
  | .inl p => p.2
  | .inr _ => initLocals

/-- The revision driver's fold (`_process_revisions_since_revid`): apply each
adjacent revision pair's diff in order. -/
def applyDiffs : List (Revision × Revision × Diff) → Intermediate → Intermediate
  | [], acc => acc
  | (p, c, d) :: rest, acc => applyDiffs rest (parse_diff p c d acc)

/-! ### pipeline.py: the structured corpus assembler -/

/-- The output unit of the corpus; `user` is the id the `User` object is
built from (the author, possibly Python `None` for pre-existing blocks). -/
structure Utterance where
  id : String
  user : Option String
  root : String
  reply_to : Option String
  timestamp : Option String
  text : String
  meta_constituent_blocks : List String
  meta_last_revision : Nat
deriving DecidableEq, Repr

/-- The corpus object: the utterance list and the `reverse_block_index`
metadata. -/
structure Corpus where
  utterances : List Utterance
  reverse_block_index : Dict String
deriving DecidableEq, Repr

/-- `_find_reply_to_from_segment`.  The outer `none` models the `IndexError`
raised on an empty segment list or an empty second-to-last segment; the inner
value is the returned reply target (`None` for a one-segment chain). -/
def find_reply_to_from_segment (segment : List (List String)) : Option (Option String) :=
  if segment.length = 1 then some none
  else
    match segment.get? (segment.length - 2) with
    | none => none
    | some seg2 =>
      match seg2.head? with
      | none => none
      | some h => some (some h)

/-- Python `set.add` modelled on an insertion-ordered duplicate-free list
(the set's iteration order is not observable in the properties proved
below). -/
def setAdd (l : List String) (s : String) : List String := if s ∈ l then l else l ++ [s]

/-- State of the first loop of `convert_intermediate_to_corpus`: the
`complete_utterances` set and `block_hashes_to_segments`.  (The `users` cache
only interns `User` objects and has no observable effect; it is omitted.) -/
structure Loop1State where
  completes : List String
  segMap : Dict (List (List String))
deriving Repr

/-- One iteration of the first loop (pipeline.py lines 141-156).  The loop
body is wrapped in `try`/`except`: any exception skips the rest of the body
but keeps the `complete_utterances` entries already added. -/
def loop1Step (acc : Intermediate) (st : Loop1State) (kv : String × Block) : Loop1State :=
  match kv.2.reply_chain with
  | none => st
  | some chain =>
    match segment_contiguous_blocks acc chain with
    | none => st
    | some segments =>
      match segments.getLast? with
      | none => st
      | some lastSeg =>
        match lastSeg.getLast? with
        | none => st
        | some lastH =>
          if lastH ≠ kv.1 then st
          else
            let st1 : Loop1State :=
              { st with completes := (segments.dropLast.map string_of_seg).foldl setAdd st.completes }
            match kv.2.is_header with
            | none => st1
            | some ih =>
              if ih then
                { completes := setAdd st1.completes (string_of_seg lastSeg)
                  segMap := dset st1.segMap kv.1 segments }
              else
                match dget? acc.blocks lastH with
                | none => st1
                | some lb =>
                  if lb.is_followed then { st1 with segMap := dset st1.segMap kv.1 segments }
                  else
                    { completes := setAdd st1.completes (string_of_seg lastSeg)
                      segMap := dset st1.segMap kv.1 segments }

/-- One iteration of the second loop (lines 158-184).  This loop is *not*
wrapped in a `try`, so a `none` (a `KeyError`/`AttributeError`/`IndexError`/
`TypeError` in the body) aborts the whole conversion. -/
def loop2Step (acc : Intermediate) (segMap : Dict (List (List String)))
    (st : List Utterance × Dict String) (utt : String) :
    Option (List Utterance × Dict String) := do
  let block_hashes := pySplitSpace utt
  let first ← block_hashes.head?
  let belongs ← dget? segMap first
  let first_block ← dget? acc.blocks first
  let rh ← first_block.root_hash
  let rhv ← rh
  let u_root ← find_ultimate_hash acc rhv
  let u_replyto ← find_reply_to_from_segment belongs
  let texts ← block_hashes.mapM fun h => do
    let b ← dget? acc.blocks h
    b.text
  let rids ← first_block.revision_ids
  let lastRid ← rids.getLast?
  let uttObj : Utterance :=
    { id := first, user := first_block.user, root := u_root, reply_to := u_replyto
      timestamp := first_block.timestamp, text := String.intercalate "\n" texts
      meta_constituent_blocks := block_hashes
      meta_last_revision := match lastRid with | RId.unknown => 0 | RId.rid n => n }
  return (st.1 ++ [uttObj], block_hashes.foldl (fun m h => dset m h first) st.2)

/-- `convert_intermediate_to_corpus`.  `none` models the uncaught exception
the second loop can raise, which aborts the conversion with no corpus. -/
def convert_intermediate_to_corpus (acc : Intermediate) : Option Corpus :=
  let st1 := acc.blocks.foldl (loop1Step acc) ⟨[], []⟩
  (st1.completes.foldlM (loop2Step acc st1.segMap) ([], [])).map fun r =>
    { utterances := r.1, reverse_block_index := r.2 }

/-! ### Concrete diff fixtures used by the witnesses and counterexamples -/

/-- An empty marker cell (`<td class="diff-marker"></td>`). -/
def tdMarker : Td := ⟨["diff-marker"], "", none, none⟩

/-- The `−` marker cell of a modification row. -/
def tdMarkerMinus : Td := ⟨["diff-marker"], "−", none, none⟩

/-- The `+` marker cell of a modification row. -/
def tdMarkerPlus : Td := ⟨["diff-marker"], "+", none, none⟩

def tdEmpty : Td := ⟨["diff-empty"], "", none, none⟩

def tdAdded (t : String) : Td := ⟨["diff-addedline"], t, none, none⟩

def tdDeleted (t : String) : Td := ⟨["diff-deletedline"], t, none, none⟩

def tdContext (t : String) : Td := ⟨["diff-context"], t, none, none⟩

def tdLineno : Td := ⟨["diff-lineno"], "", none, none⟩

/-- A regular new-content row. -/
def rowAdded (t : String) : List Td := [tdEmpty, tdMarker, tdAdded t]

/-- An unedited (context) row. -/
def rowUnedited (t : String) : List Td := [tdMarker, tdContext t, tdMarker, tdContext t]

/-- A removal row. -/
def rowRemoval (t : String) : List Td := [tdMarkerMinus, tdDeleted t, tdEmpty]

/-- A modification row (the two marker cells differ, `−` vs `+`). -/
def rowModification (oldT newT : String) : List Td :=
  [tdMarkerMinus, tdDeleted oldT, tdMarkerPlus, tdAdded newT]

/-- A moved-right row: a new-content row whose marker carries the anchor link
to the paired left-side paragraph. -/
def rowMovedRight (t anchor : String) : List Td :=
  [tdEmpty, ⟨["diff-marker"], "", some (String.append "#" anchor), none⟩, tdAdded t]

def rowLineno : List Td := [tdLineno, tdLineno]

def rev0 : Revision := ⟨100, "2020-01-01T00:00:00Z", some "alice"⟩

def rev1 : Revision := ⟨101, "2020-01-02T00:00:00Z", some "bob"⟩

def rev2 : Revision := ⟨102, "2020-01-03T00:00:00Z", some "carol"⟩

/-- A diff with no moved-paragraph anchors. -/
def plainDiff (rows : List (List Td)) : Diff := ⟨[] :: rows, fun _ => none⟩

/-- The invariant of section 8 of the spec on a block map: every stored
block's `reply_chain` is set and ends in the block's own key. -/
def ChainInvM (m : Dict Block) : Prop :=
  ∀ h b, dget? m h = some b → ∃ l, b.reply_chain = some l ∧ l.getLast? = some h

/-- The invariant on an accumulator. -/
def ChainInv (acc : Intermediate) : Prop := ChainInvM acc.blocks

/-- The moved-paragraph scenario: one revision adds a section and the comment
`"x"`, the next moves the comment with its text changed to `"y"`. -/
def movedScenario : Intermediate :=
  parse_diff rev1 rev2
    ⟨[[], rowMovedRight "y" "p1"], fun n => if n = "p1" then some "x" else none⟩
    (parse_diff rev0 rev1 (plainDiff [rowAdded "== S ==", rowAdded "x"]) emptyIntermediate)

/-- The alias walk from `h` stops (at a fixed point or a missing key) with
some amount of fuel — i.e. the Python `while` loop terminates. -/
def Terminates (m : Dict String) (h : String) : Prop :=
  ∃ n r, resolveFuel m n h = some r

/-- The alias/store invariant maintained by every row of the applier, on the
success and on the exception path alike: every alias walk terminates, every
alias fixed point is a stored block, and every stored block has its
`revision_ids` attribute set. -/
def StoreInv (acc : Intermediate) : Prop :=
  (∀ h, Terminates acc.hash_lookup h) ∧
  (∀ h, dget? acc.hash_lookup h = some h → (dget? acc.blocks h).isSome = true) ∧
  (∀ h b, dget? acc.blocks h = some b → b.revision_ids.isSome = true)

/-- One pre-existing (unedited) block alone in the store. -/
def uneditedLone : Intermediate :=
  parse_diff rev0 rev1 (plainDiff [rowUnedited "x"]) emptyIntermediate

/-- A pre-existing block plus a tracked reply to it: the reply's chain makes
the pre-existing block a complete segment of its own. -/
def uneditedCrash : Intermediate :=
  parse_diff rev0 rev1 (plainDiff [rowUnedited "x", rowAdded ":reply"]) emptyIntermediate

/-- Apply a list of blind dictionary writes in order. -/
def applyW {α : Type} (m : Dict α) : List (String × α) → Dict α
  | [] => m
  | (k, v) :: ws => applyW (dset m k v) ws

/-- The value of the last write to `k` in the list, if any. -/
def lastWrite {α : Type} : List (String × α) → String → Option α
  | [], _ => none
  | (k', v) :: rest, k =>
    match lastWrite rest k with
    | some v' => some v'
    | none => if k' = k then some v else none

/-- The rows for which re-application is proved a no-op: regular (non-moved)
new-content rows whose non-heading text has a computable depth, and
line-number rows. -/
def RowOk (tds : List Td) : Prop :=
  (is_unedited_tr tds = false ∧ is_new_content_tr tds = some true ∧
    is_moved_right_tr tds = false ∧
    (0 < (pyStripSpaces (cell tds 2).text).length →
      is_new_section_text (cell tds 2).text = false →
      (compute_text_depth (cell tds 2).text).isSome = true)) ∨
  (is_unedited_tr tds = false ∧ is_new_content_tr tds = some false ∧
    is_removal_tr tds = some false ∧ is_modification_tr tds = some false ∧
    is_line_number_tr tds = some true)

instance (tds : List Td) : Decidable (RowOk tds) := by
  unfold RowOk
  infer_instance

/-- The write lists (block writes, alias writes) and final locals that a run
of `RowOk` rows produces; `pv` tracks the key and value of the most recently
stored added block, whose chain a continuation row copies and whose
`is_followed` it sets.  The writes depend only on the rows, the revision
metadata and the locals — not on the store. -/
def okWrites (curr : Revision) :
    List (List Td) → Locals → Option (String × Block) →
      List (String × Block) × List (String × String) × Locals
  | [], L, _ => ([], [], L)
  | tds :: rest, L, pv =>
    if is_new_content_tr tds = some true then
      let t := (cell tds 2).text
      let h := compute_md5 t
      if 0 < (pyStripSpaces t).length then
        let base : Block :=
          { text := some t, timestamp := some curr.timestamp
            user := some curr.userOrHidden, ingested := some true
            revision_ids := some [RId.rid curr.revid] }
        if is_new_section_text t then
          let L1 : Locals := { L with behavior := L.behavior ++ ["create_section"]
                                      curr_section_hash := some h }
          let blk : Block := { base with reply_chain := some [h], is_header := some true
                                         root_hash := some (some h) }
          let L2 : Locals := { L1 with last_hash := some h, last_depth := L1.block_depth
                                       last_block_was_ingested := true }
          let r := okWrites curr rest L2 (some (h, blk))
          ((h, blk) :: r.1, (h, h) :: r.2.1, r.2.2)
        else
          match compute_text_depth t with
          | none => ([], [], L)
          | some bd =>
            let L2 : Locals := { L with behavior := L.behavior ++ ["add_comment"]
                                        block_depth := some (Int.ofNat bd) }
            if L.last_block_was_ingested then
              match pv with
              | none => ([], [], L)
              | some (pk, pb) =>
                match pb.reply_chain with
                | none => ([], [], L)
                | some ch =>
                  let blk : Block := { base with reply_chain := some (ch ++ [h])
                                                 is_header := some false
                                                 root_hash := some L2.curr_section_hash }
                  let L3 : Locals := { L2 with last_hash := some h, last_depth := L2.block_depth
                                               last_block_was_ingested := true }
                  let r := okWrites curr rest L3 (some (h, blk))
                  ((pk, { pb with is_followed := true }) :: (h, blk) :: r.1,
                   (h, h) :: r.2.1, r.2.2)
            else
              let blk : Block := { base with reply_chain := some [h], is_header := some false
                                             root_hash := some L2.curr_section_hash }
              let L3 : Locals := { L2 with last_hash := some h, last_depth := L2.block_depth
                                           last_block_was_ingested := true }
              let r := okWrites curr rest L3 (some (h, blk))
              ((h, blk) :: r.1, (h, h) :: r.2.1, r.2.2)
      else okWrites curr rest L pv
    else okWrites curr rest L pv

/-- The coupling between the locals, the tracked previous block and the
store under which a run of `RowOk` rows is store-oblivious. -/
def Ready (L : Locals) (pv : Option (String × Block)) (S : Intermediate) : Prop :=
  (L.last_block_was_ingested = true →
    ∃ pk pb ch, pv = some (pk, pb) ∧ L.last_hash = some pk ∧
      dget? S.blocks pk = some pb ∧ pb.reply_chain = some ch) ∧
  (L.last_block_was_ingested = false → L.last_hash = none ∧ ∃ dd, L.last_depth = some dd)

/-- The diff whose re-application the counterexample exercises. -/
def modDiff : Diff := plainDiff [rowModification "x" "y"]

/-- A section plus comment `"x"`, then one modification of `"x"` to `"y"`. -/
def modOnce : Intermediate :=
  parse_diff rev1 rev2 modDiff
    (parse_diff rev0 rev1 (plainDiff [rowAdded "== S ==", rowAdded "x"]) emptyIntermediate)

/-- The same modification diff applied a second time. -/
def modTwice : Intermediate := parse_diff rev1 rev2 modDiff modOnce

/-- A row whose re-application on the state `S` performs no store write:
an unedited row whose (non-empty, assertion-passing) text is already stored
in `S` — then the branch either only reads, or aborts on a missing attribute
before writing; a removal row whose hash is absent from the alias map of `S`
— then the `del` raises the caught `KeyError` at once (a moved-left or empty
removal row writes nothing anyway); or a line-number row, which the dispatch
ignores. -/
def SettledRow (S : Intermediate) (tds : List Td) : Prop :=
  (is_unedited_tr tds = true ∧
    ((cell tds 1).text = (cell tds 3).text →
      0 < (pyStripSpaces (cell tds 1).text).length →
      (dget? S.blocks (compute_md5 (cell tds 1).text)).isSome = true)) ∨
  (is_unedited_tr tds = false ∧ is_new_content_tr tds = some false ∧
    is_removal_tr tds = some true ∧
    (0 < (cell tds 1).text.length → is_moved_left_tr tds = false →
      dget? S.hash_lookup (compute_md5 (cell tds 1).text) = none)) ∨
  (is_unedited_tr tds = false ∧ is_new_content_tr tds = some false ∧
    is_removal_tr tds = some false ∧ is_modification_tr tds = some false ∧
    is_line_number_tr tds = some true)

instance (S : Intermediate) (tds : List Td) : Decidable (SettledRow S tds) := by
  unfold SettledRow
  infer_instance

/-- A row the unedited-only regime admits: an unedited row or a line-number
row. -/
def UneditedLike (tds : List Td) : Prop :=
  is_unedited_tr tds = true ∨
  (is_unedited_tr tds = false ∧ is_new_content_tr tds = some false ∧
    is_removal_tr tds = some false ∧ is_modification_tr tds = some false ∧
    is_line_number_tr tds = some true)

instance (tds : List Td) : Decidable (UneditedLike tds) := by
  unfold UneditedLike
  infer_instance

/-- A row the removal-only regime admits: a removal row or a line-number
row. -/
def RemovalLike (tds : List Td) : Prop :=
  (is_unedited_tr tds = false ∧ is_new_content_tr tds = some false ∧
    is_removal_tr tds = some true) ∨
  (is_unedited_tr tds = false ∧ is_new_content_tr tds = some false ∧
    is_removal_tr tds = some false ∧ is_modification_tr tds = some false ∧
    is_line_number_tr tds = some true)

instance (tds : List Td) : Decidable (RemovalLike tds) := by
  unfold RemovalLike
  infer_instance

/-- A store holding a section plus the comments `"x"` and `"z"`, with `"x"`
in the middle of the insertion order. -/
def accR : Intermediate :=
  parse_diff rev0 rev1 (plainDiff [rowAdded "== S ==", rowAdded "x", rowAdded "z"])
    emptyIntermediate

/-- A modification-free diff that removes `"x"` and then re-adds it together
with a new comment `"y"`. -/
def reorderDiff : Diff := plainDiff [rowRemoval "x", rowAdded "x", rowAdded "y"]

/-- One application of the remove-and-re-add diff. -/
def reorderOnce : Intermediate := parse_diff rev1 rev2 reorderDiff accR

/-- The same remove-and-re-add diff applied a second time: the re-run removal
finds the re-added hash present, deletes it, and the re-add appends it after
`"y"`, permuting the insertion order of the block store. -/
def reorderTwice : Intermediate := parse_diff rev1 rev2 reorderDiff reorderOnce

/-- A store holding a section heading and one comment. -/
def accW : Intermediate :=
  parse_diff rev0 rev1 (plainDiff [rowAdded "== S ==", rowAdded "x"]) emptyIntermediate

/-- A diff of one already-stored unedited heading row and one removal row
whose hash the store never held. -/
def settledDiff : Diff := plainDiff [rowUnedited "== S ==", rowRemoval "zzz"]

theorem dget_dset_self {α : Type} (m : Dict α) (k : String) (v : α) :
    dget? (dset m k v) k = some v := by
  induction m with
  | nil => simp [dget?, dset]
  | cons hd tl ih =>
    obtain ⟨k₀, v₀⟩ := hd
    by_cases h : k₀ = k <;> simp [dget?, dset, h, ih]

theorem dget_dset_ne {α : Type} (m : Dict α) (k k' : String) (v : α) (h : k ≠ k') :
    dget? (dset m k v) k' = dget? m k' := by
  induction m with
  | nil => simp [dget?, dset, h]
  | cons hd tl ih =>
    obtain ⟨k₀, v₀⟩ := hd
    by_cases hk : k₀ = k
    · subst hk
      simp [dget?, dset, h]
    · simp [dget?, dset, hk, ih]

theorem dget_dset_cases {α : Type} (m : Dict α) (k k' : String) (v : α) :
    dget? (dset m k v) k' = if k = k' then some v else dget? m k' := by
  by_cases h : k = k'
  · subst h
    simp [dget_dset_self]
  · simp [dget_dset_ne m k k' v h, h]

theorem dget_ddel {α : Type} (m : Dict α) (k k' : String) :
    dget? (ddel m k) k' = if k = k' then none else dget? m k' := by
  induction m with
  | nil => simp [dget?, ddel]
  | cons hd tl ih =>
    obtain ⟨k₀, v₀⟩ := hd
    by_cases h0 : k₀ = k
    · subst h0
      by_cases h1 : k₀ = k'
      · subst h1
        simp [ddel, ih]
      · simp [ddel, dget?, ih, h1]
    · by_cases h1 : k₀ = k'
      · subst h1
        have : ¬ k = k₀ := fun he => h0 he.symm
        simp [dget?, ddel, h0, this]
      · simp [dget?, ddel, h0, h1, ih]

/-! ## Supporting lemmas -/

theorem text_depth_go_spec (l : List Char) (acc : Nat) :
    text_depth_go l acc =
      if l.all (· = ':') then none
      else some (acc + (l.takeWhile (· = ':')).length) := by
  induction l generalizing acc with
  | nil => simp [text_depth_go]
  | cons c rest ih =>
    by_cases hc : c = ':'
    · subst hc
      simp only [text_depth_go, if_pos rfl, ih, List.all_cons, List.takeWhile]
      by_cases hall : rest.all (· = ':') <;> simp [hall, Nat.add_assoc, Nat.add_comm 1]
    · simp [text_depth_go, hc, List.takeWhile_cons_of_neg, List.all_cons]

theorem md5Digest_length (msg : List Nat) : (md5Digest msg).length = 16 := by
  simp [md5Digest, leBytes]

theorem md5Hex_length (msg : List Nat) : (md5Hex msg).length = 32 := by
  have h : ∀ l : List Nat, ((l.map byteHex).flatten).length = 2 * l.length := by
    intro l
    induction l with
    | nil => simp
    | cons b rest ih => simp [byteHex, ih]; omega
  simp [md5Hex, String.length, h, md5Digest_length]

/-! ## Claim C2 -/

/-- C2 (code bug): for every call with `0 < this_depth ≤ prev_depth`,
`compute_reply_hash` returns `None`: the loop body's `reply_block.reply_to`
raises `AttributeError` (caught by the bare `except`, returning `None`), and
when the loop guard is already false the function falls off its end without
returning the walked hash.  The claimed behavior — returning the ancestor at
the matching depth — never happens. -/
theorem c2_reply_walk_returns_none (acc : Intermediate) (h : Option String)
    (d t : Int) (h0 : 0 < t) (hle : t ≤ d) :
    compute_reply_hash acc h (some d) t = some none := by
  have ht : ¬ t = 0 := by omega
  have hgt : ¬ t > d := by omega
  simp only [compute_reply_hash, if_neg ht, if_neg hgt]
  split <;> rfl

/-- Witness for C2 at a concrete store and depths `prev_depth = this_depth = 1`,
where the claim says the hash of the previous block itself must be returned. -/
theorem c2_reply_walk_returns_none_witness :
    (0 : Int) < 1 ∧ (1 : Int) ≤ 1 ∧
      compute_reply_hash
        (parse_diff rev0 rev1 (plainDiff [rowAdded "== S ==", rowAdded "x"]) emptyIntermediate)
        (some (compute_md5 "x")) (some 1) 1 = some none :=
  ⟨by decide, by decide,
    c2_reply_walk_returns_none _ _ 1 1 (by decide) (by decide)⟩

/-! ## Claim C4 -/

/-- C4 counterexample: `compute_text_depth` is not total — on the empty string
and on a string made only of colons the indexing loop `while text[d] == ":"`
runs past the end and raises `IndexError` (modelled by `none`). -/
theorem c4_counterexample :
    compute_text_depth "" = none ∧ compute_text_depth "::" = none := by
  constructor <;> rfl

/-- C4 amended: `fingerprint` and `is_section_heading` are pure and total:
`compute_md5` always yields a 32-character digest and depends only on the
stripped text, and `is_new_section_text` is exactly the matched `===`/`==`
wrapping test.  `compute_text_depth` counts the leading colons on every string
containing a non-colon character, but raises on the empty string and on
all-colon strings. -/
theorem c4_amended (s t : String) :
    ((compute_md5 s).length = 32 ∧ (pyStrip s = pyStrip t → compute_md5 s = compute_md5 t)) ∧
    (is_new_section_text s = true ↔
      ((pySliceTo s 3 = "===" ∧ pySliceLast s 3 = "===") ∨
        (pySliceTo s 2 = "==" ∧ pySliceLast s 2 = "=="))) ∧
    ((¬ s.data.all (· = ':')) →
      compute_text_depth s = some ((s.data.takeWhile (· = ':')).length)) ∧
    (s.data.all (· = ':') → compute_text_depth s = none) := by
  refine ⟨⟨md5Hex_length _, fun he => by simp [compute_md5, he]⟩, ?_, ?_, ?_⟩
  · simp [is_new_section_text]
  · intro hna
    simp [compute_text_depth, text_depth_go_spec, hna]
  · intro ha
    simp [compute_text_depth, text_depth_go_spec, ha]

/-- Witness for C4 amended at concrete strings: depth of `"::a"` is 2, and a
heading is recognized. -/
theorem c4_amended_witness :
    compute_text_depth "::a" = some 2 ∧ is_new_section_text "== T ==" = true := by
  constructor
  · have h := (c4_amended "::a" "::a").2.2.1 (by decide)
    simpa using h
  · exact (c4_amended "== T ==" "== T ==").2.1.mpr (by decide)

/-! ## Claim C5 -/

/-- C5 (code bug): serialization never succeeds.  `write_to_disk` either fails
its `_filepath` assertion or reaches `json.dump(obj)` — called without the
required file argument, a `TypeError` — so no intermediate is ever written and
the claimed serialize-reload round trip is impossible. -/
theorem c5_write_to_disk_always_fails (fp : Option String) (acc : Intermediate) :
    write_to_disk fp acc = none := by
  cases fp <;> rfl

/-! ## Claim C7 -/

/-- C7 counterexample: a four-cell row whose cells 1 and 3 carry identical
text but whose marker cells 0 and 2 differ (`−` vs `+`, as in a modification
row whose two sides happen to print the same text) is *not* classified
unedited, although the claim says it must be. -/
theorem c7_counterexample :
    ([tdMarkerMinus, tdContext "x", tdMarkerPlus, tdContext "x"].length = 4 ∧
      ([tdMarkerMinus, tdContext "x", tdMarkerPlus, tdContext "x"].getD 1 default).text =
        ([tdMarkerMinus, tdContext "x", tdMarkerPlus, tdContext "x"].getD 3 default).text) ∧
    is_unedited_tr [tdMarkerMinus, tdContext "x", tdMarkerPlus, tdContext "x"] = false := by
  exact ⟨⟨by decide, by decide⟩, by decide⟩

/-- C7 amended: the classifier tags a row unedited exactly when it has four
cells and cell 0 equals cell 2 as a whole tag (`all_td[0] == all_td[2]`); the
identical-text condition on cells 1 and 3 is only asserted afterwards by the
applier, not tested by the classifier. -/
theorem c7_amended (tds : List Td) :
    is_unedited_tr tds = true ↔ (tds.length = 4 ∧ (cell tds 0) = (cell tds 2)) := by
  simp [is_unedited_tr]

/-- Witness for C7 amended on a genuine unedited row. -/
theorem c7_amended_witness : is_unedited_tr (rowUnedited "x") = true :=
  (c7_amended (rowUnedited "x")).mpr ⟨by decide, by decide⟩

/-! ## Claim C9 -/

/-- C9 counterexample: a new-content row whose text is a single tab — empty
after trimming whitespace — is *not* skipped: the applier only strips space
characters (`strip(" ")`), so the row creates a block (keyed by the hash of
the fully stripped, hence empty, text). -/
theorem c9_counterexample :
    pyStrip "\t" = "" ∧
      (parse_diff rev0 rev1 (plainDiff [rowAdded "\t"]) emptyIntermediate).blocks.length = 1 := by
  exact ⟨by decide, by decide⟩

/-- C9 amended: an added or unedited row whose text is empty after trimming
*space characters* is skipped without touching the accumulator or the locals;
text made of other whitespace is processed. -/
theorem c9_space_empty_rows_skipped (prev curr : Revision) (anchors : String → Option String)
    (tds : List Td) (acc : Intermediate) (L : Locals)
    (hadd : (pyStripSpaces (cell tds 2).text).length = 0)
    (huned : (cell tds 1).text = (cell tds 3).text)
    (huned0 : (pyStripSpaces (cell tds 1).text).length = 0) :
    stepAdded curr anchors tds acc L = .inl (acc, L) ∧
      stepUnedited prev tds acc L = .inl (acc, L) := by
  constructor
  · simp [stepAdded, hadd]
  · rw [huned] at huned0
    simp [stepUnedited, huned, huned0]

/-- Witness for C9 amended at a concrete space-only added row and unedited
row. -/
theorem c9_space_empty_rows_skipped_witness :
    stepAdded rev1 (fun _ => none) (rowAdded "  ") emptyIntermediate initLocals =
        .inl (emptyIntermediate, initLocals) ∧
      stepUnedited rev0 (rowUnedited " ") emptyIntermediate initLocals =
        .inl (emptyIntermediate, initLocals) := by
  have h := c9_space_empty_rows_skipped rev0 rev1 (fun _ => none) (rowAdded "  ")
    emptyIntermediate initLocals (by decide) (by decide) (by decide)
  have h2 := c9_space_empty_rows_skipped rev0 rev1 (fun _ => none) (rowUnedited " ")
    emptyIntermediate initLocals (by decide) (by decide) (by decide)
  exact ⟨h.1, h2.2⟩

/-! ## Claim C1 -/

theorem finishAdded_inl (h : String) (blk : Block) (acc : Intermediate) (L : Locals)
    (acc' : Intermediate) (L' : Locals)
    (hf : finishAdded h blk acc L = .inl (acc', L')) :
    acc' = { acc with blocks := dset acc.blocks h blk
                      hash_lookup := dset acc.hash_lookup h h } := by
  simp only [finishAdded, Sum.inl.injEq, Prod.mk.injEq] at hf
  exact hf.1.symm

/-- C1: a regular (non-moved) new-content row with non-empty added text makes
the applier create and store, under the text's hash, a block whose `text` is
the added text, `timestamp` the current revision's timestamp, `user` the
current revision's user (or the `userhidden` sentinel), `ingested` true and
`revision_ids` exactly the current revision id; in particular the one-revision
diff adding `"== Greet =="` then `"Hello."` leaves exactly two blocks, the
heading's hash being the root of the `"Hello."` block. -/
theorem c1_added_row_creates_block (curr : Revision) (anchors : String → Option String)
    (tds : List Td) (acc : Intermediate) (L : Locals) (acc' : Intermediate) (L' : Locals)
    (hmov : is_moved_right_tr tds = false)
    (hstep : stepAdded curr anchors tds acc L = .inl (acc', L'))
    (hne : 0 < (pyStripSpaces (cell tds 2).text).length) :
    (∃ b : Block, dget? acc'.blocks (compute_md5 (cell tds 2).text) = some b ∧
      b.text = some (cell tds 2).text ∧ b.timestamp = some curr.timestamp ∧
      b.user = some curr.userOrHidden ∧ b.ingested = some true ∧
      b.revision_ids = some [RId.rid curr.revid]) ∧
    ((parse_diff rev0 rev1 (plainDiff [rowAdded "== Greet ==", rowAdded "Hello."])
        emptyIntermediate).blocks.length = 2 ∧
      (dget? (parse_diff rev0 rev1 (plainDiff [rowAdded "== Greet ==", rowAdded "Hello."])
          emptyIntermediate).blocks (compute_md5 "Hello.")).map Block.root_hash =
        some (some (some (compute_md5 "== Greet =="))) ∧
      compute_md5 "== Greet ==" ≠ compute_md5 "Hello.") := by
  refine ⟨?_, by decide, by decide, by decide⟩
  simp only [stepAdded, hmov, Bool.false_eq_true, if_false, if_pos hne] at hstep
  repeat' split at hstep
  all_goals
    first
      | exact Sum.noConfusion hstep
      | (have h := finishAdded_inl _ _ _ _ _ _ hstep
         subst h
         exact ⟨_, dget_dset_self _ _ _, rfl, rfl, rfl, rfl, rfl⟩)

/-- Witness for C1: the general part applied to a concrete added row on the
empty accumulator. -/
theorem c1_added_row_creates_block_witness :
    ∃ b : Block,
      dget? (stateOf (stepAdded rev1 (fun _ => none) (rowAdded "hi")
          emptyIntermediate initLocals)).blocks (compute_md5 "hi") = some b ∧
        b.text = some "hi" ∧ b.ingested = some true ∧
        b.revision_ids = some [RId.rid 101] := by
  have hstep : stepAdded rev1 (fun _ => none) (rowAdded "hi") emptyIntermediate initLocals =
      .inl (stateOf (stepAdded rev1 (fun _ => none) (rowAdded "hi") emptyIntermediate initLocals),
            localsOf (stepAdded rev1 (fun _ => none) (rowAdded "hi") emptyIntermediate initLocals)) := by
    decide
  obtain ⟨⟨b, hb, htext, -, -, hing, hrids⟩, -⟩ :=
    c1_added_row_creates_block rev1 (fun _ => none) (rowAdded "hi") emptyIntermediate initLocals
      _ _ (by decide) hstep (by decide)
  exact ⟨b, hb, htext, hing, hrids⟩

/-! ## Claim C3 -/

theorem dset_dset_same {α : Type} (m : Dict α) (k : String) (v w : α) :
    dset (dset m k v) k w = dset m k w := by
  induction m with
  | nil => simp [dset]
  | cons hd tl ih =>
    obtain ⟨k₀, v₀⟩ := hd
    by_cases h : k₀ = k
    · subst h
      simp [dset]
    · simp [dset, h, ih]

theorem chainInvM_dset (m : Dict Block) (k : String) (bk : Block) (hm : ChainInvM m)
    (hend : ∃ l, bk.reply_chain = some l ∧ l.getLast? = some k) :
    ChainInvM (dset m k bk) := by
  intro h b hb
  rw [dget_dset_cases] at hb
  split at hb
  · next heq =>
    injection hb with hb'
    subst hb'
    subst heq
    exact hend
  · exact hm h b hb

theorem chainInvM_ddel (m : Dict Block) (k : String) (hm : ChainInvM m) :
    ChainInvM (ddel m k) := by
  intro h b hb
  rw [dget_ddel] at hb
  split at hb
  · exact absurd hb (by simp)
  · exact hm h b hb

/-- Setting `is_followed` on a stored block keeps the invariant: the chain is
untouched. -/
theorem chainInvM_setFollowed (m : Dict Block) (lh : String) (lb : Block)
    (hm : ChainInvM m) (hget : dget? m lh = some lb) :
    ChainInvM (dset m lh { lb with is_followed := true }) := by
  refine chainInvM_dset _ _ _ hm ?_
  obtain ⟨l, hl, hlast⟩ := hm _ _ hget
  exact ⟨l, hl, hlast⟩

theorem stepUnedited_chainInv (prev : Revision) (tds : List Td) (acc : Intermediate)
    (L : Locals) (acc' : Intermediate) (L' : Locals) (hinv : ChainInv acc)
    (h : stepUnedited prev tds acc L = .inl (acc', L')) : ChainInv acc' := by
  simp only [stepUnedited] at h
  repeat' split at h
  all_goals first
    | exact Sum.noConfusion h
    | (simp only [Sum.inl.injEq, Prod.mk.injEq] at h
       obtain ⟨h1, -⟩ := h
       subst h1
       first
         | exact hinv
         | exact chainInvM_dset _ _ _ hinv ⟨_, rfl, by simp⟩)

theorem stepAdded_chainInv (curr : Revision) (anchors : String → Option String)
    (tds : List Td) (acc : Intermediate) (L : Locals) (acc' : Intermediate) (L' : Locals)
    (hinv : ChainInv acc) (hmov : is_moved_right_tr tds = false)
    (h : stepAdded curr anchors tds acc L = .inl (acc', L')) : ChainInv acc' := by
  simp only [stepAdded, hmov, Bool.false_eq_true, if_false] at h
  repeat' split at h
  all_goals first
    | exact Sum.noConfusion h
    | (simp only [Sum.inl.injEq, Prod.mk.injEq] at h
       obtain ⟨h1, -⟩ := h
       subst h1
       exact hinv)
    | (have he := finishAdded_inl _ _ _ _ _ _ h
       subst he
       first
         | exact chainInvM_dset _ _ _ hinv ⟨_, rfl, by simp⟩
         | exact chainInvM_dset _ _ _
             (chainInvM_setFollowed _ _ _ hinv (by assumption)) ⟨_, rfl, by simp⟩)

theorem stepRemoval_chainInv (tds : List Td) (acc : Intermediate) (L : Locals)
    (acc' : Intermediate) (L' : Locals) (hinv : ChainInv acc)
    (h : stepRemoval tds acc L = .inl (acc', L')) : ChainInv acc' := by
  simp only [stepRemoval] at h
  repeat' split at h
  all_goals
    simp only [Sum.inl.injEq, Prod.mk.injEq] at h
    obtain ⟨h1, -⟩ := h
    subst h1
    first
      | exact hinv
      | exact chainInvM_ddel _ _ hinv

theorem stepModification_chainInv (curr : Revision) (tds : List Td) (acc : Intermediate)
    (L : Locals) (acc' : Intermediate) (L' : Locals) (hinv : ChainInv acc)
    (h : stepModification curr tds acc L = .inl (acc', L')) : ChainInv acc' := by
  simp only [stepModification] at h
  repeat' split at h
  all_goals first
    | exact Sum.noConfusion h
    | (simp only [Sum.inl.injEq, Prod.mk.injEq] at h
       obtain ⟨h1, -⟩ := h
       subst h1
       first
         | exact chainInvM_dset _ _ _ (chainInvM_ddel _ _ hinv) ⟨_, rfl, by simp⟩
         | exact chainInvM_dset _ _ _ hinv ⟨_, rfl, by simp⟩
         | (rw [dset_dset_same]
            exact chainInvM_dset _ _ _ (chainInvM_ddel _ _ hinv) ⟨_, rfl, by simp⟩)
         | (rw [dset_dset_same]
            refine chainInvM_setFollowed _ _ _
              (chainInvM_dset _ _ _ (chainInvM_ddel _ _ hinv) ⟨_, rfl, by simp⟩) ?_
            rw [← dset_dset_same]
            assumption))

theorem stepRow_chainInv (prev curr : Revision) (anchors : String → Option String)
    (tds : List Td) (acc : Intermediate) (L : Locals) (acc' : Intermediate) (L' : Locals)
    (hinv : ChainInv acc) (hmov : is_moved_right_tr tds = false)
    (h : stepRow prev curr anchors tds acc L = .inl (acc', L')) : ChainInv acc' := by
  simp only [stepRow] at h
  repeat' split at h
  all_goals first
    | exact Sum.noConfusion h
    | exact stepUnedited_chainInv _ _ _ _ _ _ hinv h
    | exact stepAdded_chainInv _ _ _ _ _ _ _ hinv hmov h
    | exact stepRemoval_chainInv _ _ _ _ _ hinv h
    | exact stepModification_chainInv _ _ _ _ _ _ hinv h
    | (simp only [Sum.inl.injEq, Prod.mk.injEq] at h
       obtain ⟨h1, -⟩ := h
       subst h1
       exact hinv)

theorem runRows_chainInv (prev curr : Revision) (anchors : String → Option String)
    (rows : List (List Td)) (acc : Intermediate) (L : Locals)
    (acc' : Intermediate) (L' : Locals) (hinv : ChainInv acc)
    (hmov : ∀ tds ∈ rows, is_moved_right_tr tds = false)
    (h : runRows prev curr anchors rows acc L = .inl (acc', L')) : ChainInv acc' := by
  induction rows generalizing acc L with
  | nil =>
    simp only [runRows, Sum.inl.injEq, Prod.mk.injEq] at h
    obtain ⟨h1, -⟩ := h
    subst h1
    exact hinv
  | cons tds rest ih =>
    simp only [runRows] at h
    split at h
    · next p hstep =>
      exact ih _ _ (stepRow_chainInv _ _ _ _ _ _ _ _ hinv (hmov tds (by simp)) hstep)
        (fun t ht => hmov t (by simp [ht])) h
    · exact Sum.noConfusion h

/-- C3 counterexample: after a moved-right row rekeys the `"x"` block under
the changed text `"y"`, the stored block's `reply_chain` still ends in the
pre-move hash of `"x"`, not in its own key — the claimed invariant fails. -/
theorem c3_counterexample :
    (((dget? movedScenario.blocks (compute_md5 "y")).bind Block.reply_chain).bind
        List.getLast? = some (compute_md5 "x")) ∧
      compute_md5 "x" ≠ compute_md5 "y" := by
  constructor
  · decide
  · decide

/-- C3 amended: after every cleanly applied revision whose diff contains no
moved-right rows, every stored block's `reply_chain` ends in its own key; a
text-changing moved-right rekey instead leaves the pre-move key as the last
chain element, with the alias map sending that key to the block's new key. -/
theorem c3_reply_chain_last (prev curr : Revision) (d : Diff) (acc : Intermediate)
    (acc₁ : Intermediate) (L₁ : Locals) (hinv : ChainInv acc)
    (hmov : ∀ tds ∈ d.rows.drop 1, is_moved_right_tr tds = false)
    (hrun : runRows prev curr d.anchorText (d.rows.drop 1) acc initLocals = .inl (acc₁, L₁)) :
    ChainInv (parse_diff prev curr d acc) ∧
      find_ultimate_hash movedScenario (compute_md5 "x") = some (compute_md5 "y") := by
  refine ⟨?_, by decide⟩
  have h1 := runRows_chainInv _ _ _ _ _ _ _ _ hinv hmov hrun
  simp only [parse_diff, hrun]
  exact h1

/-- Witness for C3 amended: one added row on the empty store; the created
block's chain ends in its own key. -/
theorem c3_reply_chain_last_witness :
    ∃ l, ((dget? (parse_diff rev0 rev1 (plainDiff [rowAdded "a"])
            emptyIntermediate).blocks (compute_md5 "a")).bind Block.reply_chain) = some l ∧
      l.getLast? = some (compute_md5 "a") := by
  have hempty : ChainInv emptyIntermediate := by
    intro h b hb
    simp [emptyIntermediate, dget?] at hb
  have hrun : runRows rev0 rev1 (plainDiff [rowAdded "a"]).anchorText
      ((plainDiff [rowAdded "a"]).rows.drop 1) emptyIntermediate initLocals =
      .inl (stateOf (runRows rev0 rev1 (plainDiff [rowAdded "a"]).anchorText
          ((plainDiff [rowAdded "a"]).rows.drop 1) emptyIntermediate initLocals),
        localsOf (runRows rev0 rev1 (plainDiff [rowAdded "a"]).anchorText
          ((plainDiff [rowAdded "a"]).rows.drop 1) emptyIntermediate initLocals)) := by
    decide
  have hchain := (c3_reply_chain_last rev0 rev1 (plainDiff [rowAdded "a"]) emptyIntermediate
    _ _ hempty (by decide) hrun).1
  have hsome : (dget? (parse_diff rev0 rev1 (plainDiff [rowAdded "a"])
      emptyIntermediate).blocks (compute_md5 "a")).isSome = true := by decide
  obtain ⟨bl, hbl⟩ := Option.isSome_iff_exists.mp hsome
  obtain ⟨l, hl, hlast⟩ := hchain _ _ hbl
  exact ⟨l, by rw [hbl]; simpa using hl, hlast⟩

/-! ## Claim C6 -/

theorem resolveFuel_step (m : Dict String) (h h₂ : String) (n : Nat) (r : Option String)
    (hget : dget? m h = some h₂) (hne : h₂ ≠ h) (hr : resolveFuel m n h₂ = some r) :
    resolveFuel m (n + 1) h = some r := by
  simp [resolveFuel, hget, hne, hr]

/-- Termination survives a paired alias-map update that leaves `new` a fixed
point, points `old` at `new`, and changes nothing else.  (Instantiated for
self-insertion and for the two write orders of the rekey clusters.) -/
theorem term_pair (m m' : Dict String) (old new : String)
    (hm : ∀ h, Terminates m h)
    (hnew : dget? m' new = some new)
    (hold : dget? m' old = some new)
    (hrest : ∀ h, h ≠ old → h ≠ new → dget? m' h = dget? m h) :
    ∀ h, Terminates m' h := by
  have key : ∀ n h r, resolveFuel m n h = some r → Terminates m' h := by
    intro n
    induction n with
    | zero => intro h r hr; exact absurd hr (by simp [resolveFuel])
    | succ n ih =>
      intro h r hr
      by_cases hhn : h = new
      · subst hhn
        exact ⟨1, some h, by simp [resolveFuel, hnew]⟩
      · by_cases hho : h = old
        · subst hho
          have hno : ¬ new = h := fun he => hhn he.symm
          exact ⟨2, some new, by simp [resolveFuel, hold, hnew, hno]⟩
        · have hsame := hrest h hho hhn
          cases hget : dget? m h with
          | none => exact ⟨1, none, by simp [resolveFuel, hsame, hget]⟩
          | some h₂ =>
            by_cases hfix : h₂ = h
            · exact ⟨1, some h, by simp [resolveFuel, hsame, hget, hfix]⟩
            · simp only [resolveFuel, hget, if_neg hfix] at hr
              obtain ⟨n₂, r₂, hr₂⟩ := ih h₂ r hr
              exact ⟨n₂ + 1, r₂, resolveFuel_step m' h h₂ n₂ r₂ (hsame.trans hget) hfix hr₂⟩
  intro h
  obtain ⟨n, r, hr⟩ := hm h
  exact key n h r hr

/-- Termination survives deleting an alias entry: a walk that reaches the
deleted key now stops with the `KeyError` outcome. -/
theorem term_ddel (m : Dict String) (k : String) (hm : ∀ h, Terminates m h) :
    ∀ h, Terminates (ddel m k) h := by
  have key : ∀ n h r, resolveFuel m n h = some r → Terminates (ddel m k) h := by
    intro n
    induction n with
    | zero => intro h r hr; exact absurd hr (by simp [resolveFuel])
    | succ n ih =>
      intro h r hr
      by_cases hk : k = h
      · exact ⟨1, none, by simp [resolveFuel, dget_ddel, hk]⟩
      · have hsame : dget? (ddel m k) h = dget? m h := by simp [dget_ddel, hk]
        cases hget : dget? m h with
        | none => exact ⟨1, none, by simp [resolveFuel, hsame, hget]⟩
        | some h₂ =>
          by_cases hfix : h₂ = h
          · exact ⟨1, some h, by simp [resolveFuel, hsame, hget, hfix]⟩
          · simp only [resolveFuel, hget, if_neg hfix] at hr
            obtain ⟨n₂, r₂, hr₂⟩ := ih h₂ r hr
            exact ⟨n₂ + 1, r₂, resolveFuel_step _ h h₂ n₂ r₂ (hsame.trans hget) hfix hr₂⟩
  intro h
  obtain ⟨n, r, hr⟩ := hm h
  exact key n h r hr

theorem term_dset_self (m : Dict String) (k : String) (hm : ∀ h, Terminates m h) :
    ∀ h, Terminates (dset m k k) h := by
  refine term_pair m (dset m k k) k k hm ?_ ?_ ?_
  · exact dget_dset_self m k k
  · exact dget_dset_self m k k
  · intro h h1 _
    exact dget_dset_ne m k h k (fun he => h1 he.symm)

/-- The moved-right cluster: `hash_lookup[old] = new` then
`hash_lookup[new] = new`. -/
theorem term_move_cluster (m : Dict String) (old new : String) (hm : ∀ h, Terminates m h) :
    ∀ h, Terminates (dset (dset m old new) new new) h := by
  refine term_pair m _ old new hm (dget_dset_self _ _ _) ?_ ?_
  · by_cases h : old = new
    · subst h
      simp [dset_dset_same, dget_dset_self]
    · rw [dget_dset_ne _ new old new (fun he => h he.symm), dget_dset_self]
  · intro h h1 h2
    rw [dget_dset_ne _ new h new (fun he => h2 he.symm),
      dget_dset_ne _ old h new (fun he => h1 he.symm)]

/-- The modification cluster: `hash_lookup[new] = new` then
`hash_lookup[old] = new`. -/
theorem term_mod_cluster (m : Dict String) (old new : String) (hm : ∀ h, Terminates m h) :
    ∀ h, Terminates (dset (dset m new new) old new) h := by
  refine term_pair m _ old new hm ?_ (dget_dset_self _ _ _) ?_
  · by_cases h : old = new
    · subst h
      simp [dset_dset_same, dget_dset_self]
    · rw [dget_dset_ne _ old new new h, dget_dset_self]
  · intro h h1 h2
    rw [dget_dset_ne _ old h new (fun he => h1 he.symm),
      dget_dset_ne _ new h new (fun he => h2 he.symm)]

/-- The fixed-point component of `StoreInv`, factored over the one key the
row's write cluster introduces. -/
theorem fixInv_general (lookup lookup' : Dict String) (blocks blocks' : Dict Block)
    (k : String)
    (hfix : ∀ h, dget? lookup h = some h → (dget? blocks h).isSome = true)
    (hl : ∀ h, h ≠ k → dget? lookup' h = some h → dget? lookup h = some h)
    (hbk : (dget? blocks' k).isSome = true)
    (hb : ∀ h, h ≠ k → dget? lookup' h = some h →
      (dget? blocks h).isSome = true → (dget? blocks' h).isSome = true) :
    ∀ h, dget? lookup' h = some h → (dget? blocks' h).isSome = true := by
  intro h hh
  by_cases hk : h = k
  · subst hk
    exact hbk
  · exact hb h hk hh (hfix h (hl h hk hh))

theorem isSome_dset {α : Type} (m : Dict α) (k h : String) (v : α)
    (hs : (dget? m h).isSome = true) : (dget? (dset m k v) h).isSome = true := by
  rw [dget_dset_cases]
  split <;> simp [hs]

theorem isSome_ddel_ne {α : Type} (m : Dict α) (k h : String) (hne : ¬ k = h)
    (hs : (dget? m h).isSome = true) : (dget? (ddel m k) h).isSome = true := by
  rw [dget_ddel, if_neg hne]
  exact hs

/-- `StoreInv` after the plain insert cluster `blocks[k] = b; lookup[k] = k`. -/
theorem storeInv_insert (acc : Intermediate) (k : String) (b : Block)
    (hinv : StoreInv acc) (hb : b.revision_ids.isSome = true) :
    StoreInv { acc with blocks := dset acc.blocks k b
                        hash_lookup := dset acc.hash_lookup k k } := by
  obtain ⟨hterm, hfix, hrev⟩ := hinv
  refine ⟨term_dset_self _ _ hterm, ?_, ?_⟩
  · refine fixInv_general acc.hash_lookup _ acc.blocks _ k hfix ?_ (by simp [dget_dset_self]) ?_
    · intro h hk hh
      rwa [dget_dset_ne _ _ _ _ (fun he => hk he.symm)] at hh
    · intro h _ _ hs
      exact isSome_dset _ _ _ _ hs
  · intro h b' hb'
    rw [dget_dset_cases] at hb'
    split at hb'
    · injection hb' with h1
      subst h1
      exact hb
    · exact hrev _ _ hb'

/-- `StoreInv` after a same-author continuation: set `is_followed` on the
previous block, then insert the new one. -/
theorem storeInv_follow_insert (acc : Intermediate) (lh k : String) (lb b : Block)
    (hinv : StoreInv acc) (hlb : dget? acc.blocks lh = some lb)
    (hb : b.revision_ids.isSome = true) :
    StoreInv { acc with
      blocks := dset (dset acc.blocks lh { lb with is_followed := true }) k b
      hash_lookup := dset acc.hash_lookup k k } := by
  obtain ⟨hterm, hfix, hrev⟩ := hinv
  refine ⟨term_dset_self _ _ hterm, ?_, ?_⟩
  · refine fixInv_general acc.hash_lookup _ acc.blocks _ k hfix ?_ (by simp [dget_dset_self]) ?_
    · intro h hk hh
      rwa [dget_dset_ne _ _ _ _ (fun he => hk he.symm)] at hh
    · intro h _ _ hs
      exact isSome_dset _ _ _ _ (isSome_dset _ _ _ _ hs)
  · intro h b' hb'
    rw [dget_dset_cases] at hb'
    split at hb'
    · injection hb' with h1
      subst h1
      exact hb
    · rw [dget_dset_cases] at hb'
      split at hb'
      · injection hb' with h1
        subst h1
        exact hrev lh lb hlb
      · exact hrev _ _ hb'

/-- `StoreInv` after the moved-right rekey cluster:
`lookup[old] = k`, pop `old`, insert `b` at `k`, `lookup[k] = k`. -/
theorem storeInv_move (acc : Intermediate) (old k : String) (b : Block)
    (hinv : StoreInv acc) (hb : b.revision_ids.isSome = true) :
    StoreInv { acc with
      blocks := dset (ddel acc.blocks old) k b
      hash_lookup := dset (dset acc.hash_lookup old k) k k } := by
  obtain ⟨hterm, hfix, hrev⟩ := hinv
  refine ⟨term_move_cluster _ _ _ hterm, ?_, ?_⟩
  · refine fixInv_general acc.hash_lookup _ acc.blocks _ k hfix ?_ (by simp [dget_dset_self]) ?_
    · intro h hk hh
      rw [dget_dset_ne _ _ _ _ (fun he => hk he.symm), dget_dset_cases] at hh
      split at hh
      · injection hh with h1
        exact absurd h1.symm hk
      · exact hh
    · intro h hk hh hs
      rw [dget_dset_ne _ _ _ _ (fun he => hk he.symm), dget_dset_cases] at hh
      split at hh
      · injection hh with h1
        exact absurd h1.symm hk
      · next ho =>
        exact isSome_dset _ _ _ _ (isSome_ddel_ne _ _ _ ho hs)
  · intro h b' hb'
    rw [dget_dset_cases] at hb'
    split at hb'
    · injection hb' with h1
      subst h1
      exact hb
    · rw [dget_ddel] at hb'
      split at hb'
      · exact absurd hb' (by simp)
      · exact hrev _ _ hb'

/-- `StoreInv` after the modification rekey cluster:
pop `old`, insert `b` at `new`, `lookup[new] = new`, `lookup[old] = new`. -/
theorem storeInv_mod (acc : Intermediate) (old new : String) (b : Block)
    (hinv : StoreInv acc) (hb : b.revision_ids.isSome = true) :
    StoreInv { acc with
      blocks := dset (ddel acc.blocks old) new b
      hash_lookup := dset (dset acc.hash_lookup new new) old new } := by
  obtain ⟨hterm, hfix, hrev⟩ := hinv
  refine ⟨term_mod_cluster _ _ _ hterm, ?_, ?_⟩
  · refine fixInv_general acc.hash_lookup _ acc.blocks _ new hfix ?_ (by simp [dget_dset_self]) ?_
    · intro h hk hh
      rw [dget_dset_cases] at hh
      split at hh
      · injection hh with h1
        exact absurd h1.symm hk
      · rwa [dget_dset_ne _ _ _ _ (fun he => hk he.symm)] at hh
    · intro h hk hh hs
      rw [dget_dset_cases] at hh
      split at hh
      · injection hh with h1
        exact absurd h1.symm hk
      · next ho =>
        exact isSome_dset _ _ _ _ (isSome_ddel_ne _ _ _ ho hs)
  · intro h b' hb'
    rw [dget_dset_cases] at hb'
    split at hb'
    · injection hb' with h1
      subst h1
      exact hb
    · rw [dget_ddel] at hb'
      split at hb'
      · exact absurd hb' (by simp)
      · exact hrev _ _ hb'

/-- `StoreInv` after the modification cluster followed by the same-author
`is_followed` update (the chain-recomputation tail of the branch). -/
theorem storeInv_mod_follow (acc : Intermediate) (old new lh : String) (b lb2 : Block)
    (hinv : StoreInv acc) (hb : b.revision_ids.isSome = true)
    (hlb2 : dget? (dset (ddel acc.blocks old) new b) lh = some lb2) :
    StoreInv { acc with
      blocks := dset (dset (ddel acc.blocks old) new b) lh { lb2 with is_followed := true }
      hash_lookup := dset (dset acc.hash_lookup new new) old new } := by
  have hbase := storeInv_mod acc old new b hinv hb
  obtain ⟨hterm, hfix, hrev⟩ := hbase
  refine ⟨hterm, ?_, ?_⟩
  · intro h hh
    exact isSome_dset _ _ _ _ (hfix h hh)
  · intro h b' hb'
    rw [dget_dset_cases] at hb'
    split at hb'
    · injection hb' with h1
      subst h1
      exact hrev lh lb2 hlb2
    · exact hrev _ _ hb'

/-- `StoreInv` after dropping an alias entry only (`del hash_lookup[k]`
succeeded, `del blocks[k]` raised `KeyError`, caught). -/
theorem storeInv_del_lookup (acc : Intermediate) (k : String) (hinv : StoreInv acc) :
    StoreInv { acc with hash_lookup := ddel acc.hash_lookup k } := by
  obtain ⟨hterm, hfix, hrev⟩ := hinv
  refine ⟨term_ddel _ _ hterm, ?_, hrev⟩
  intro h hh
  rw [dget_ddel] at hh
  split at hh
  · exact absurd hh (by simp)
  · exact hfix h hh

/-- `StoreInv` after a successful removal (both entries dropped). -/
theorem storeInv_del_both (acc : Intermediate) (k : String) (hinv : StoreInv acc) :
    StoreInv { acc with hash_lookup := ddel acc.hash_lookup k
                        blocks := ddel acc.blocks k } := by
  obtain ⟨hterm, hfix, hrev⟩ := hinv
  refine ⟨term_ddel _ _ hterm, ?_, ?_⟩
  · intro h hh
    rw [dget_ddel] at hh
    split at hh
    · exact absurd hh (by simp)
    · next hkh =>
      exact isSome_ddel_ne _ _ _ hkh (hfix h hh)
  · intro h b hb
    rw [dget_ddel] at hb
    split at hb
    · exact absurd hb (by simp)
    · exact hrev _ _ hb

theorem stepUnedited_storeInv (prev : Revision) (tds : List Td) (acc : Intermediate)
    (L : Locals) (hinv : StoreInv acc) :
    StoreInv (stateOf (stepUnedited prev tds acc L)) := by
  simp only [stepUnedited]
  repeat' split
  all_goals simp only [stateOf]
  all_goals first
    | exact hinv
    | exact storeInv_insert _ _ _ hinv rfl

theorem stepAdded_storeInv (curr : Revision) (anchors : String → Option String)
    (tds : List Td) (acc : Intermediate) (L : Locals) (hinv : StoreInv acc) :
    StoreInv (stateOf (stepAdded curr anchors tds acc L)) := by
  simp only [stepAdded, finishAdded]
  repeat' split
  all_goals simp only [stateOf]
  all_goals first
    | exact hinv
    | exact storeInv_insert _ _ _ hinv rfl
    | exact storeInv_move _ _ _ _ hinv rfl
    | exact storeInv_follow_insert _ _ _ _ _ hinv (by assumption) rfl
    | (exfalso
       have hrevids := hinv.2.2 _ _ (by assumption)
       simp only [apply_ite Block.revision_ids] at *
       simp_all)

theorem stepRemoval_storeInv (tds : List Td) (acc : Intermediate) (L : Locals)
    (hinv : StoreInv acc) : StoreInv (stateOf (stepRemoval tds acc L)) := by
  simp only [stepRemoval]
  repeat' split
  all_goals simp only [stateOf]
  all_goals first
    | exact hinv
    | exact storeInv_del_lookup _ _ hinv
    | exact storeInv_del_both _ _ hinv

theorem stepModification_storeInv (curr : Revision) (tds : List Td) (acc : Intermediate)
    (L : Locals) (hinv : StoreInv acc) :
    StoreInv (stateOf (stepModification curr tds acc L)) := by
  simp only [stepModification]
  repeat' split
  all_goals simp only [stateOf]
  all_goals first
    | exact hinv
    | exact storeInv_insert _ _ _ hinv rfl
    | exact storeInv_mod _ _ _ _ hinv rfl
    | (simp only [dset_dset_same] at *
       first
         | exact storeInv_mod _ _ _ _ hinv rfl
         | exact storeInv_mod_follow _ _ _ _ _ _ hinv rfl (by assumption))
    | (exfalso
       have hrevids := hinv.2.2 _ _ (by assumption)
       simp_all)

theorem stepRow_storeInv (prev curr : Revision) (anchors : String → Option String)
    (tds : List Td) (acc : Intermediate) (L : Locals) (hinv : StoreInv acc) :
    StoreInv (stateOf (stepRow prev curr anchors tds acc L)) := by
  simp only [stepRow]
  repeat' split
  all_goals simp only [stateOf]
  all_goals first
    | exact hinv
    | exact stepUnedited_storeInv prev tds acc L hinv
    | exact stepAdded_storeInv curr anchors tds acc L hinv
    | exact stepRemoval_storeInv tds acc L hinv
    | exact stepModification_storeInv curr tds acc L hinv

theorem runRows_storeInv (prev curr : Revision) (anchors : String → Option String)
    (rows : List (List Td)) (acc : Intermediate) (L : Locals) (hinv : StoreInv acc) :
    StoreInv (stateOf (runRows prev curr anchors rows acc L)) := by
  induction rows generalizing acc L with
  | nil => exact hinv
  | cons tds rest ih =>
    simp only [runRows]
    cases hstep : stepRow prev curr anchors tds acc L with
    | inl p =>
      have h1 := stepRow_storeInv prev curr anchors tds acc L hinv
      rw [hstep] at h1
      exact ih p.1 p.2 h1
    | inr a =>
      have h1 := stepRow_storeInv prev curr anchors tds acc L hinv
      rw [hstep] at h1
      exact h1

theorem parse_diff_storeInv (prev curr : Revision) (d : Diff) (acc : Intermediate)
    (hinv : StoreInv acc) : StoreInv (parse_diff prev curr d acc) := by
  have h := runRows_storeInv prev curr d.anchorText (d.rows.drop 1) acc initLocals hinv
  unfold parse_diff
  cases hrun : runRows prev curr d.anchorText (d.rows.drop 1) acc initLocals with
  | inl p =>
    rw [hrun] at h
    exact h
  | inr a =>
    rw [hrun] at h
    exact h

theorem storeInv_empty : StoreInv emptyIntermediate := by
  refine ⟨fun h => ⟨1, none, by simp [resolveFuel, emptyIntermediate, dget?]⟩, ?_, ?_⟩
  · intro h hh
    simp [emptyIntermediate, dget?] at hh
  · intro h b hb
    simp [emptyIntermediate, dget?] at hb

theorem applyDiffs_storeInv (ds : List (Revision × Revision × Diff)) (acc : Intermediate)
    (hinv : StoreInv acc) : StoreInv (applyDiffs ds acc) := by
  induction ds generalizing acc with
  | nil => exact hinv
  | cons d rest ih => exact ih _ (parse_diff_storeInv _ _ _ _ hinv)

/-- A normally terminated walk ends at a fixed point of the alias map. -/
theorem resolveFuel_fixed (m : Dict String) (n : Nat) (h hstar : String)
    (hr : resolveFuel m n h = some (some hstar)) : dget? m hstar = some hstar := by
  induction n generalizing h with
  | zero => exact absurd hr (by simp [resolveFuel])
  | succ n ih =>
    cases hget : dget? m h with
    | none =>
      simp only [resolveFuel, hget] at hr
      exact absurd hr (by simp)
    | some h₂ =>
      simp only [resolveFuel, hget] at hr
      by_cases hfix : h₂ = h
      · rw [if_pos hfix] at hr
        injection hr with hr'
        injection hr' with hr''
        subst hr''
        rw [hget, hfix]
      · rw [if_neg hfix] at hr
        exact ih h₂ hr

/-- C6: in every state reachable from the empty accumulator, the alias walk
from every hash terminates — no sequence of applied revisions creates a
cycle — and when the walk stops normally its fixed point is a key of the
block store; resolving a hash whose alias entry a removal deleted stops at
once with the `KeyError` outcome (modelled `none`, "nothing") rather than
looping. -/
theorem c6_alias_resolution (ds : List (Revision × Revision × Diff)) (h : String) :
    (∃ n r, resolveFuel (applyDiffs ds emptyIntermediate).hash_lookup n h = some r ∧
      ∀ hstar, r = some hstar →
        (dget? (applyDiffs ds emptyIntermediate).blocks hstar).isSome = true) ∧
    (dget? (applyDiffs ds emptyIntermediate).hash_lookup h = none →
      find_ultimate_hash (applyDiffs ds emptyIntermediate) h = none) := by
  have hinv := applyDiffs_storeInv ds emptyIntermediate storeInv_empty
  obtain ⟨hterm, hfix, -⟩ := hinv
  constructor
  · obtain ⟨n, r, hr⟩ := hterm h
    refine ⟨n, r, hr, ?_⟩
    intro hstar hr'
    subst hr'
    exact hfix hstar (resolveFuel_fixed _ _ _ _ hr)
  · intro hnone
    simp [find_ultimate_hash, resolveFuel, hnone]

/-- Witness for C6: after one revision adds `"x"` and the next removes it,
resolving the stale hash of `"x"` yields nothing. -/
theorem c6_alias_resolution_witness :
    find_ultimate_hash
      (applyDiffs [(rev0, rev1, plainDiff [rowAdded "x"]),
        (rev1, rev2, plainDiff [rowRemoval "x"])] emptyIntermediate)
      (compute_md5 "x") = none :=
  (c6_alias_resolution [(rev0, rev1, plainDiff [rowAdded "x"]),
    (rev1, rev2, plainDiff [rowRemoval "x"])] (compute_md5 "x")).2 (by decide)

/-! ## Claim C10 -/

/-- C10 counterexample: the pre-existing `"x"` block (stored without
`is_header`) heads a complete segment of the reply's chain, so the
assembler's second loop hits a `KeyError` on the missing
`block_hashes_to_segments` entry — an exception nothing catches — and the
conversion produces no corpus at all, instead of a corpus that merely
excludes the block. -/
theorem c10_counterexample :
    (dget? uneditedCrash.blocks (compute_md5 "x")).map Block.is_header = some none ∧
      convert_intermediate_to_corpus uneditedCrash = none := by
  constructor
  · decide
  · decide

/-- C10 amended: a block created by the unedited-row branch is stored with no
`is_header` attribute, and no `root_hash` attribute unless its text is a
section heading; the assembler's first loop raises on it, catches the
exception and omits its segments entry; when no complete segment of another
chain starts at such a block the conversion succeeds and excludes it from
every utterance (concretely: the lone pre-existing block yields an empty
utterance list). -/
theorem c10_unedited_blocks (prev : Revision) (tds : List Td) (acc : Intermediate)
    (L : Locals) (acc' : Intermediate) (L' : Locals)
    (hstep : stepUnedited prev tds acc L = .inl (acc', L'))
    (hnew : dget? acc.blocks (compute_md5 (cell tds 1).text) = none)
    (hne : 0 < (pyStripSpaces (cell tds 1).text).length) :
    (∃ b : Block, dget? acc'.blocks (compute_md5 (cell tds 1).text) = some b ∧
      b.is_header = none ∧
      (is_new_section_text (cell tds 1).text = false → b.root_hash = none)) ∧
    (∃ c : Corpus, convert_intermediate_to_corpus uneditedLone = some c ∧
      c.utterances = []) := by
  refine ⟨?_, ⟨⟨[], []⟩, by decide, rfl⟩⟩
  simp only [stepUnedited, hnew] at hstep
  repeat' split at hstep
  all_goals first
    | exact Sum.noConfusion hstep
    | (simp only [Sum.inl.injEq, Prod.mk.injEq] at hstep
       obtain ⟨h1, -⟩ := hstep
       subst h1
       refine ⟨_, dget_dset_self _ _ _, rfl, ?_⟩
       intro hf
       simp_all)
    | (exfalso
       omega)

/-- Witness for C10 amended at a concrete unedited row on the empty store. -/
theorem c10_unedited_blocks_witness :
    ∃ b : Block,
      dget? (stateOf (stepUnedited rev0 (rowUnedited "w") emptyIntermediate
          initLocals)).blocks (compute_md5 "w") = some b ∧
        b.is_header = none ∧ b.root_hash = none := by
  have hstep : stepUnedited rev0 (rowUnedited "w") emptyIntermediate initLocals =
      .inl (stateOf (stepUnedited rev0 (rowUnedited "w") emptyIntermediate initLocals),
        localsOf (stepUnedited rev0 (rowUnedited "w") emptyIntermediate initLocals)) := by
    decide
  obtain ⟨⟨b, hb, hih, hrh⟩, -⟩ :=
    c10_unedited_blocks rev0 (rowUnedited "w") emptyIntermediate initLocals _ _
      hstep (by decide) (by decide)
  exact ⟨b, hb, hih, hrh (by decide)⟩

/-! ## Claim C8 -/

theorem dget_applyW {α : Type} (W : List (String × α)) (m : Dict α) (k : String) :
    dget? (applyW m W) k =
      match lastWrite W k with
      | some v => some v
      | none => dget? m k := by
  induction W generalizing m with
  | nil => simp [applyW, lastWrite]
  | cons w rest ih =>
    obtain ⟨k', v⟩ := w
    simp only [applyW, lastWrite, ih]
    cases lastWrite rest k with
    | some v' => simp
    | none => by_cases hk : k' = k <;> simp [hk, dget_dset_cases]

theorem dset_self_of_get {α : Type} (m : Dict α) (k : String) (v : α)
    (h : dget? m k = some v) : dset m k v = m := by
  induction m with
  | nil => simp [dget?] at h
  | cons hd tl ih =>
    obtain ⟨k₀, v₀⟩ := hd
    by_cases hk : k₀ = k
    · subst hk
      simp only [dget?, if_pos rfl] at h
      injection h with h'
      subst h'
      simp [dset]
    · simp only [dget?, if_neg hk] at h
      simp [dset, hk, ih h]

/-- In-place updates at distinct keys commute when the first key is already
present (so both orders keep the entry positions). -/
theorem dset_comm_of_present {α : Type} (m : Dict α) (k j : String) (v w : α)
    (hj : j ≠ k) (hk : (dget? m k).isSome = true) :
    dset (dset m k v) j w = dset (dset m j w) k v := by
  induction m with
  | nil => simp [dget?] at hk
  | cons hd tl ih =>
    obtain ⟨k₀, v₀⟩ := hd
    by_cases h0k : k₀ = k
    · subst h0k
      simp [dset, if_pos rfl, if_neg (fun he : k₀ = j => hj he.symm), hj]
    · by_cases h0j : k₀ = j
      · subst h0j
        simp [dset, h0k, fun he : k₀ = k => h0k he]
      · simp only [dget?, if_neg h0k] at hk
        simp [dset, h0k, h0j, ih hk]

theorem lastWrite_isSome_of_mem {α : Type} (W : List (String × α)) (k : String)
    (hk : k ∈ W.map Prod.fst) : (lastWrite W k).isSome = true := by
  induction W with
  | nil => simp at hk
  | cons w rest ih =>
    obtain ⟨k', v⟩ := w
    simp only [lastWrite]
    cases hlw : lastWrite rest k with
    | some v' => simp
    | none =>
      simp only [List.map_cons, List.mem_cons] at hk
      rcases hk with hk | hk
      · simp [hk]
      · have hs := ih hk
        rw [hlw] at hs
        simp at hs

theorem mem_of_lastWrite_isSome {α : Type} (W : List (String × α)) (k : String)
    (h : (lastWrite W k).isSome = true) : k ∈ W.map Prod.fst := by
  induction W with
  | nil => simp [lastWrite] at h
  | cons w rest ih =>
    obtain ⟨k', u⟩ := w
    simp only [lastWrite] at h
    cases h' : lastWrite rest k with
    | some u' => exact List.mem_cons_of_mem _ (ih (by simp [h']))
    | none =>
      rw [h'] at h
      by_cases hj : k' = k
      · simp [hj]
      · simp [hj] at h

theorem writtenKeys_present {α : Type} (W : List (String × α)) (m : Dict α) (k : String)
    (hk : k ∈ W.map Prod.fst) : (dget? (applyW m W) k).isSome = true := by
  rw [dget_applyW]
  have hs := lastWrite_isSome_of_mem W k hk
  cases hlw : lastWrite W k with
  | none =>
    rw [hlw] at hs
    simp at hs
  | some v => simp

theorem applyW_dset_present {α : Type} (W : List (String × α)) (T : Dict α)
    (k : String) (v : α) (hk : (dget? T k).isSome = true) (hmem : k ∈ W.map Prod.fst) :
    applyW (dset T k v) W = applyW T W := by
  induction W generalizing T v with
  | nil => simp at hmem
  | cons w rest ih =>
    obtain ⟨j, u⟩ := w
    simp only [applyW]
    by_cases hjk : j = k
    · subst hjk
      rw [dset_dset_same]
    · simp only [List.map_cons, List.mem_cons] at hmem
      rcases hmem with hmem | hmem
      · exact absurd hmem.symm hjk
      · rw [dset_comm_of_present T k j v u hjk hk]
        exact ih (dset T j u) v (isSome_dset _ _ _ _ hk) hmem

/-- Re-running a write list over a map that already holds every written key
at its final value is the identity — at the list level, since in-place
updates keep entry positions. -/
theorem applyW_absorbed {α : Type} (W : List (String × α)) (T : Dict α)
    (h1 : ∀ k, k ∈ W.map Prod.fst → (dget? T k).isSome = true)
    (h2 : ∀ k v, lastWrite W k = some v → dget? T k = some v) :
    applyW T W = T := by
  induction W with
  | nil => rfl
  | cons w rest ih =>
    obtain ⟨k, v⟩ := w
    simp only [applyW]
    have hrest1 : ∀ k', k' ∈ rest.map Prod.fst → (dget? T k').isSome = true := by
      intro k' hk'
      exact h1 k' (by simp [hk'])
    have hrest2 : ∀ k' v', lastWrite rest k' = some v' → dget? T k' = some v' := by
      intro k' v' hv'
      refine h2 k' v' ?_
      simp [lastWrite, hv']
    by_cases hmem : k ∈ rest.map Prod.fst
    · rw [applyW_dset_present rest T k v (h1 k (by simp)) hmem]
      exact ih hrest1 hrest2
    · have hnone : lastWrite rest k = none := by
        cases hlw : lastWrite rest k with
        | none => rfl
        | some u => exact absurd (mem_of_lastWrite_isSome _ _ (by simp [hlw])) hmem
      have hget : dget? T k = some v := h2 k v (by simp [lastWrite, hnone])
      rw [dset_self_of_get T k v hget]
      exact ih hrest1 hrest2

/-- Re-application of a write list is absorbed. -/
theorem applyW_idem {α : Type} (m : Dict α) (W : List (String × α)) :
    applyW (applyW m W) W = applyW m W := by
  refine applyW_absorbed W _ (fun k hk => writtenKeys_present W m k hk) ?_
  intro k v hv
  rw [dget_applyW, hv]

theorem ready_init (S : Intermediate) : Ready initLocals none S :=
  ⟨fun hco => by simp [initLocals] at hco, fun _ => ⟨rfl, ⟨-1, rfl⟩⟩⟩

/-- With no previous hash the reply-target computation always answers
"top level" (its `this_depth > d` branch returns the `None` it was given). -/
theorem compute_reply_hash_none (acc : Intermediate) (dd t : Int) :
    compute_reply_hash acc none (some dd) t = some none := by
  simp only [compute_reply_hash]
  split_ifs <;> rfl

/-- A run of `RowOk` rows is store-oblivious: it succeeds and equals the
application of the precomputed write lists, with the precomputed locals. -/
theorem runRows_okWrites (prev curr : Revision) (anchors : String → Option String)
    (rows : List (List Td)) (L : Locals) (pv : Option (String × Block)) (S : Intermediate)
    (hok : ∀ tds ∈ rows, RowOk tds) (hready : Ready L pv S) :
    runRows prev curr anchors rows S L =
      .inl ({ S with blocks := applyW S.blocks (okWrites curr rows L pv).1
                     hash_lookup := applyW S.hash_lookup (okWrites curr rows L pv).2.1 },
            (okWrites curr rows L pv).2.2) := by
  induction rows generalizing L pv S with
  | nil => rfl
  | cons tds rest ih =>
    have hokrest : ∀ t ∈ rest, RowOk t := fun t ht => hok t (by simp [ht])
    rcases hok tds (by simp) with ⟨hu, hnc, hmov, hdepth⟩ | ⟨hu, hnc, hrem, hmodp, hlin⟩
    · by_cases hne : 0 < (pyStripSpaces (cell tds 2).text).length
      · by_cases hhdr : is_new_section_text (cell tds 2).text = true
        · -- section-heading row
          simp only [runRows, stepRow, hu, Bool.false_eq_true, if_false, hnc, stepAdded,
            hmov, if_pos hne, hhdr, if_true, finishAdded, okWrites, applyW]
          exact ih _ _ _ hokrest
            ⟨fun _ => ⟨_, _, _, rfl, rfl, dget_dset_self _ _ _, rfl⟩,
             fun hco => by simp at hco⟩
        · -- comment row
          obtain ⟨bd, hbd⟩ := Option.isSome_iff_exists.mp
            (hdepth hne (by simpa using hhdr))
          by_cases hflag : L.last_block_was_ingested = true
          · obtain ⟨pk, pb, ch, hpv, hlh, hpk, hch⟩ := hready.1 hflag
            simp only [runRows, stepRow, hu, Bool.false_eq_true, if_false, hnc, stepAdded,
              hmov, if_pos hne, hhdr, if_false, hbd, hflag, if_true, hlh, hpk, hch,
              finishAdded, okWrites, hpv, applyW]
            exact ih _ _ _ hokrest
              ⟨fun _ => ⟨_, _, _, rfl, rfl, dget_dset_self _ _ _, rfl⟩,
               fun hco => by simp at hco⟩
          · have hflag' : L.last_block_was_ingested = false := by
              revert hflag
              cases L.last_block_was_ingested <;> simp
            obtain ⟨hlh, dd, hld⟩ := hready.2 hflag'
            simp only [runRows, stepRow, hu, Bool.false_eq_true, if_false, hnc, stepAdded,
              hmov, if_pos hne, hhdr, if_false, hbd, hflag', hlh, hld,
              compute_reply_hash_none, finishAdded, okWrites, applyW]
            exact ih _ _ _ hokrest
              ⟨fun _ => ⟨_, _, _, rfl, rfl, dget_dset_self _ _ _, rfl⟩,
               fun hco => by simp at hco⟩
      · -- space-empty added row: skipped
        simp only [runRows, stepRow, hu, Bool.false_eq_true, if_false, hnc, stepAdded,
          if_neg hne, okWrites]
        exact ih _ _ _ hokrest hready
    · -- line-number row
      simp only [runRows, stepRow, hu, Bool.false_eq_true, if_false, hnc, hrem, hmodp,
        hlin, okWrites]
      exact ih _ _ _ hokrest hready

/-! The corpus assembler reads only `hash_lookup` and `blocks`; the revision
log is irrelevant to it. -/

theorem segment_go_congr (l : Dict String) (bl : Dict Block)
    (r r' : List (Nat × List String × String)) (chain : List String) :
    ∀ lastH lastU contig res,
      segment_go ⟨l, bl, r⟩ chain lastH lastU contig res =
        segment_go ⟨l, bl, r'⟩ chain lastH lastU contig res := by
  induction chain with
  | nil => intro lastH lastU contig res; rfl
  | cons hd tl ih =>
    intro lastH lastU contig res
    simp only [segment_go, find_ultimate_hash, ih]

theorem segment_contiguous_blocks_congr (l : Dict String) (bl : Dict Block)
    (r r' : List (Nat × List String × String)) (chain : List String) :
    segment_contiguous_blocks ⟨l, bl, r⟩ chain =
      segment_contiguous_blocks ⟨l, bl, r'⟩ chain := by
  match chain with
  | [] => rfl
  | [b] => simp only [segment_contiguous_blocks, find_ultimate_hash]
  | b :: b2 :: tl =>
    simp only [segment_contiguous_blocks, find_ultimate_hash, segment_go_congr l bl r r']

theorem loop1Step_congr (l : Dict String) (bl : Dict Block)
    (r r' : List (Nat × List String × String)) (st : Loop1State) (kv : String × Block) :
    loop1Step ⟨l, bl, r⟩ st kv = loop1Step ⟨l, bl, r'⟩ st kv := by
  simp only [loop1Step, segment_contiguous_blocks_congr l bl r r']

theorem loop2Step_congr (l : Dict String) (bl : Dict Block)
    (r r' : List (Nat × List String × String)) (segMap : Dict (List (List String)))
    (st : List Utterance × Dict String) (utt : String) :
    loop2Step ⟨l, bl, r⟩ segMap st utt = loop2Step ⟨l, bl, r'⟩ segMap st utt := by
  simp only [loop2Step, find_ultimate_hash]

theorem convert_revisions_irrelevant (l : Dict String) (bl : Dict Block)
    (r r' : List (Nat × List String × String)) :
    convert_intermediate_to_corpus ⟨l, bl, r⟩ = convert_intermediate_to_corpus ⟨l, bl, r'⟩ := by
  have h1 : loop1Step ⟨l, bl, r⟩ = loop1Step ⟨l, bl, r'⟩ :=
    funext fun st => funext fun kv => loop1Step_congr l bl r r' st kv
  have h2 : loop2Step ⟨l, bl, r⟩ = loop2Step ⟨l, bl, r'⟩ :=
    funext fun segMap => funext fun st => funext fun utt => loop2Step_congr l bl r r' segMap st utt
  simp only [convert_intermediate_to_corpus, h1, h2]

/-- Corpus assembly depends only on the block store and the alias map. -/
theorem convert_congr (s t : Intermediate) (hb : s.blocks = t.blocks)
    (hl : s.hash_lookup = t.hash_lookup) :
    convert_intermediate_to_corpus s = convert_intermediate_to_corpus t := by
  obtain ⟨ls, bs, rs⟩ := s
  obtain ⟨lt, bt, rt⟩ := t
  simp only at hb hl
  subst hb
  subst hl
  exact convert_revisions_irrelevant _ _ _ _

/-- A successful row run determines the whole `parse_diff` result. -/
theorem parse_diff_inl (prev curr : Revision) (d : Diff) (acc : Intermediate)
    (S : Intermediate) (L : Locals)
    (h : runRows prev curr d.anchorText (d.rows.drop 1) acc initLocals = .inl (S, L)) :
    parse_diff prev curr d acc =
      { S with revisions := S.revisions ++ [(curr.revid, L.behavior, curr.timestamp)] } := by
  simp only [parse_diff]
  rw [h]

/-- A settled unedited row leaves the store untouched: it only reads, or
aborts on a missing attribute before any write. -/
theorem settled_stepUnedited (prev : Revision) (tds : List Td) (S : Intermediate) (L : Locals)
    (hcond : (cell tds 1).text = (cell tds 3).text →
      0 < (pyStripSpaces (cell tds 1).text).length →
      (dget? S.blocks (compute_md5 (cell tds 1).text)).isSome = true) :
    stateOf (stepUnedited prev tds S L) = S := by
  simp only [stepUnedited]
  split
  · rfl
  next h1 =>
    have heq : (cell tds 1).text = (cell tds 3).text := not_not.mp h1
    split
    next h2 =>
      have hmem := hcond heq h2
      split
      · rfl
      next bd hbd =>
        split
        next hget =>
          rw [hget] at hmem
          exact absurd hmem (by simp)
        next b hget =>
          split
          · rfl
          · rfl
    next h2 => rfl

/-- A settled removal row leaves the store untouched: the `del` raises the
caught `KeyError` at once (or the row writes nothing anyway). -/
theorem settled_stepRemoval (tds : List Td) (S : Intermediate) (L : Locals)
    (hcond : 0 < (cell tds 1).text.length → is_moved_left_tr tds = false →
      dget? S.hash_lookup (compute_md5 (cell tds 1).text) = none) :
    stateOf (stepRemoval tds S L) = S := by
  simp only [stepRemoval]
  split
  next hlen =>
    split
    · rfl
    next hml =>
      rw [hcond hlen (by revert hml; simp)]
      rfl
  next hlen => rfl

/-- Any settled row leaves the store untouched, whether its step succeeds or
aborts. -/
theorem settled_stepRow (prev curr : Revision) (anchors : String → Option String)
    (tds : List Td) (S : Intermediate) (L : Locals) (h : SettledRow S tds) :
    stateOf (stepRow prev curr anchors tds S L) = S := by
  rcases h with ⟨hu, hcond⟩ | ⟨hu, hnc, hrem, hcond⟩ | ⟨hu, hnc, hrem, hmod, hlin⟩
  · simp only [stepRow, hu, if_true]
    exact settled_stepUnedited prev tds S L hcond
  · simp only [stepRow, hu, Bool.false_eq_true, if_false, hnc, hrem]
    exact settled_stepRemoval tds S L hcond
  · simp only [stepRow, hu, Bool.false_eq_true, if_false, hnc, hrem, hmod, hlin]
    rfl

/-- A run of settled rows ends (normally or abnormally) in the very state it
started from. -/
theorem runRows_settled (prev curr : Revision) (anchors : String → Option String)
    (rows : List (List Td)) : ∀ (L : Locals) (S : Intermediate),
    (∀ tds ∈ rows, SettledRow S tds) →
    stateOf (runRows prev curr anchors rows S L) = S := by
  induction rows with
  | nil => intro L S _; rfl
  | cons tds rest ih =>
    intro L S h
    have hstep := settled_stepRow prev curr anchors tds S L (h tds (by simp))
    simp only [runRows]
    rcases hs : stepRow prev curr anchors tds S L with ⟨S', L'⟩ | Se
    · rw [hs] at hstep
      simp only [stateOf] at hstep
      subst hstep
      exact ih L' S' (fun t ht => h t (by simp [ht]))
    · rw [hs] at hstep
      simp only [stateOf] at hstep
      subst hstep
      rfl

/-- Applying a diff of settled rows changes nothing but the revision log. -/
theorem parse_diff_settled (prev curr : Revision) (d : Diff) (S : Intermediate)
    (h : ∀ tds ∈ d.rows.drop 1, SettledRow S tds) :
    (parse_diff prev curr d S).blocks = S.blocks ∧
      (parse_diff prev curr d S).hash_lookup = S.hash_lookup ∧
      ∃ entry, (parse_diff prev curr d S).revisions = S.revisions ++ [entry] := by
  have hrun := runRows_settled prev curr d.anchorText (d.rows.drop 1) initLocals S h
  simp only [parse_diff]
  rcases hs : runRows prev curr d.anchorText (d.rows.drop 1) S initLocals with ⟨S', L⟩ | Se
  · rw [hs] at hrun
    simp only [stateOf] at hrun
    subst hrun
    exact ⟨rfl, rfl, _, rfl⟩
  · rw [hs] at hrun
    simp only [stateOf] at hrun
    subst hrun
    exact ⟨rfl, rfl, _, rfl⟩

/-- Settledness only reads the block store and the alias map. -/
theorem settledRow_ext (S T : Intermediate) (hb : T.blocks = S.blocks)
    (hl : T.hash_lookup = S.hash_lookup) (tds : List Td) (h : SettledRow S tds) :
    SettledRow T tds := by
  unfold SettledRow at h ⊢
  rw [hb, hl]
  exact h

/-- A successful unedited step never deletes a stored block. -/
theorem stepUnedited_blocks_mono (prev : Revision) (tds : List Td)
    (acc acc' : Intermediate) (L L' : Locals)
    (h : stepUnedited prev tds acc L = .inl (acc', L')) (k : String)
    (hk : (dget? acc.blocks k).isSome = true) : (dget? acc'.blocks k).isSome = true := by
  simp only [stepUnedited] at h
  repeat' split at h
  all_goals first
    | exact Sum.noConfusion h
    | (cases h; exact hk)
    | (cases h; exact isSome_dset _ _ _ _ hk)

/-- After its own successful step, a non-empty unedited row's hash is
stored. -/
theorem stepUnedited_self_mem (prev : Revision) (tds : List Td)
    (acc acc' : Intermediate) (L L' : Locals)
    (h : stepUnedited prev tds acc L = .inl (acc', L'))
    (hlen : 0 < (pyStripSpaces (cell tds 1).text).length) :
    (dget? acc'.blocks (compute_md5 (cell tds 1).text)).isSome = true := by
  simp only [stepUnedited] at h
  repeat' split at h
  all_goals first
    | exact Sum.noConfusion h
    | (exfalso; omega)
    | (cases h; simp [dget_dset_self])
    | (cases h; simp_all)

/-- A successful step of an unedited-like row never deletes a stored
block. -/
theorem uneditedLike_stepRow_mono (prev curr : Revision) (anchors : String → Option String)
    (tds : List Td) (acc acc' : Intermediate) (L L' : Locals) (hrow : UneditedLike tds)
    (h : stepRow prev curr anchors tds acc L = .inl (acc', L')) (k : String)
    (hk : (dget? acc.blocks k).isSome = true) : (dget? acc'.blocks k).isSome = true := by
  rcases hrow with hu | ⟨hu, hnc, hrem, hmod, hlin⟩
  · simp only [stepRow, hu, if_true] at h
    exact stepUnedited_blocks_mono prev tds acc acc' L L' h k hk
  · simp only [stepRow, hu, Bool.false_eq_true, if_false, hnc, hrem, hmod, hlin] at h
    cases h
    exact hk

/-- A successful run of unedited-like rows never deletes a stored block. -/
theorem runRows_unedited_mono (prev curr : Revision) (anchors : String → Option String)
    (rows : List (List Td)) : ∀ (acc : Intermediate) (L : Locals)
    (S1 : Intermediate) (L1 : Locals), (∀ tds ∈ rows, UneditedLike tds) →
    runRows prev curr anchors rows acc L = .inl (S1, L1) →
    ∀ k, (dget? acc.blocks k).isSome = true → (dget? S1.blocks k).isSome = true := by
  induction rows with
  | nil =>
    intro acc L S1 L1 _ hrun k hk
    cases hrun
    exact hk
  | cons tds rest ih =>
    intro acc L S1 L1 hall hrun k hk
    simp only [runRows] at hrun
    rcases hs : stepRow prev curr anchors tds acc L with ⟨a', L'⟩ | e
    · rw [hs] at hrun
      exact ih a' L' S1 L1 (fun t ht => hall t (by simp [ht])) hrun k
        (uneditedLike_stepRow_mono prev curr anchors tds acc a' L L'
          (hall tds (by simp)) hs k hk)
    · rw [hs] at hrun
      exact Sum.noConfusion hrun

/-- After a successful run of unedited-like rows, every one of its rows is
settled with respect to the final state: whatever the run stored for the row
stays stored. -/
theorem runRows_unedited_settled (prev curr : Revision) (anchors : String → Option String)
    (rows : List (List Td)) : ∀ (acc : Intermediate) (L : Locals)
    (S1 : Intermediate) (L1 : Locals), (∀ tds ∈ rows, UneditedLike tds) →
    runRows prev curr anchors rows acc L = .inl (S1, L1) →
    ∀ tds ∈ rows, SettledRow S1 tds := by
  induction rows with
  | nil => intro acc L S1 L1 _ _ tds ht; cases ht
  | cons t rest ih =>
    intro acc L S1 L1 hall hrun tds ht
    simp only [runRows] at hrun
    rcases hs : stepRow prev curr anchors t acc L with ⟨a', L'⟩ | e
    · rw [hs] at hrun
      rcases List.mem_cons.mp ht with rfl | hmem
      · rcases hall tds (by simp) with hu | hlin
        · refine Or.inl ⟨hu, fun _ hlen => ?_⟩
          have hstep : stepUnedited prev tds acc L = .inl (a', L') := by
            simpa only [stepRow, hu, if_true] using hs
          exact runRows_unedited_mono prev curr anchors rest a' L' S1 L1
            (fun x hx => hall x (by simp [hx])) hrun _
            (stepUnedited_self_mem prev tds acc a' L L' hstep hlen)
        · exact Or.inr (Or.inr hlin)
      · exact ih a' L' S1 L1 (fun x hx => hall x (by simp [hx])) hrun tds hmem
    · rw [hs] at hrun
      exact Sum.noConfusion hrun

/-- The removal branch always succeeds, never grows the alias map, and
leaves its own (firing) hash unmapped. -/
theorem stepRemoval_total (tds : List Td) (acc : Intermediate) (L : Locals) :
    ∃ a' L', stepRemoval tds acc L = .inl (a', L') ∧
      (∀ k, dget? acc.hash_lookup k = none → dget? a'.hash_lookup k = none) ∧
      (0 < (cell tds 1).text.length → is_moved_left_tr tds = false →
        dget? a'.hash_lookup (compute_md5 (cell tds 1).text) = none) := by
  simp only [stepRemoval]
  split
  next hlen =>
    split
    next hml =>
      exact ⟨acc, _, rfl, fun k hk => hk, fun _ hml2 => by simp [hml2] at hml⟩
    next hml =>
      split
      next hget =>
        exact ⟨acc, L, rfl, fun k hk => hk, fun _ _ => hget⟩
      next v hget =>
        split
        next hbget =>
          refine ⟨_, L, rfl, fun k hk => ?_, fun _ _ => by simp [dget_ddel]⟩
          rw [dget_ddel]
          split
          · rfl
          · exact hk
        next b hbget =>
          refine ⟨_, L, rfl, fun k hk => ?_, fun _ _ => by simp [dget_ddel]⟩
          rw [dget_ddel]
          split
          · rfl
          · exact hk
  next hlen =>
    exact ⟨acc, L, rfl, fun k hk => hk, fun hl _ => absurd hl (by omega)⟩

/-- A run of removal-like rows always succeeds, never grows the alias map,
and unmaps every firing removal hash. -/
theorem runRows_removal_absent (prev curr : Revision) (anchors : String → Option String)
    (rows : List (List Td)) : ∀ (acc : Intermediate) (L : Locals),
    (∀ tds ∈ rows, RemovalLike tds) →
    ∃ S1 L1, runRows prev curr anchors rows acc L = .inl (S1, L1) ∧
      (∀ k, dget? acc.hash_lookup k = none → dget? S1.hash_lookup k = none) ∧
      (∀ tds ∈ rows, is_removal_tr tds = some true →
        0 < (cell tds 1).text.length → is_moved_left_tr tds = false →
        dget? S1.hash_lookup (compute_md5 (cell tds 1).text) = none) := by
  induction rows with
  | nil =>
    intro acc L _
    exact ⟨acc, L, rfl, fun k hk => hk, fun tds ht => absurd ht (List.not_mem_nil tds)⟩
  | cons t rest ih =>
    intro acc L hall
    rcases hall t (by simp) with ⟨hu, hnc, hrem⟩ | ⟨hu, hnc, hrem, hmod, hlin⟩
    · obtain ⟨a', L', hstep, hpres, hown⟩ := stepRemoval_total t acc L
      obtain ⟨S1, L1, hrun, hpres1, hown1⟩ := ih a' L' (fun x hx => hall x (by simp [hx]))
      refine ⟨S1, L1, ?_, fun k hk => hpres1 k (hpres k hk), ?_⟩
      · simp only [runRows, stepRow, hu, Bool.false_eq_true, if_false, hnc, hrem, hstep]
        exact hrun
      · intro tds ht hr hlen hml
        rcases List.mem_cons.mp ht with rfl | hmem
        · exact hpres1 _ (hown hlen hml)
        · exact hown1 tds hmem hr hlen hml
    · obtain ⟨S1, L1, hrun, hpres1, hown1⟩ := ih acc L (fun x hx => hall x (by simp [hx]))
      refine ⟨S1, L1, ?_, hpres1, ?_⟩
      · simp only [runRows, stepRow, hu, Bool.false_eq_true, if_false, hnc, hrem, hmod, hlin]
        exact hrun
      · intro tds ht hr hlen hml
        rcases List.mem_cons.mp ht with rfl | hmem
        · rw [hr] at hrem
          exact absurd hrem (by simp)
        · exact hown1 tds hmem hr hlen hml

/-- Re-application of a diff whose rows are all settled with respect to the
once-applied state: store, alias map and corpus unchanged, one log entry. -/
theorem reapply_settled_case (prev curr : Revision) (d : Diff) (acc : Intermediate)
    (h : ∀ tds ∈ d.rows.drop 1, SettledRow (parse_diff prev curr d acc) tds) :
    (parse_diff prev curr d (parse_diff prev curr d acc)).blocks =
        (parse_diff prev curr d acc).blocks ∧
      (parse_diff prev curr d (parse_diff prev curr d acc)).hash_lookup =
        (parse_diff prev curr d acc).hash_lookup ∧
      convert_intermediate_to_corpus (parse_diff prev curr d (parse_diff prev curr d acc)) =
        convert_intermediate_to_corpus (parse_diff prev curr d acc) ∧
      ∃ entry, (parse_diff prev curr d (parse_diff prev curr d acc)).revisions =
        (parse_diff prev curr d acc).revisions ++ [entry] := by
  obtain ⟨hbv, hlv, hrev⟩ := parse_diff_settled prev curr d (parse_diff prev curr d acc) h
  exact ⟨hbv, hlv, convert_congr _ _ hbv hlv, hrev⟩

/-- C8 counterexample, in two parts.  First, a re-applied modification diff
is not a no-op: the old hash was consumed by the first application, so the
second one overwrites the rekeyed block with an unseen-modification record
(`ingested = false`).  Second, modification and moved rows are not the only
breakers: a modification-free diff that removes a text and re-adds it, when
re-applied, re-deletes and re-appends the block, permuting the insertion
order of the (ordered) block store — both applications succeed, the two
stores hold the same entries, yet they differ. -/
theorem c8_counterexample :
    (modTwice.blocks ≠ modOnce.blocks ∧
      (dget? modTwice.blocks (compute_md5 "y")).map Block.ingested = some (some false) ∧
      (dget? modOnce.blocks (compute_md5 "y")).map Block.ingested = some (some true)) ∧
    (reorderTwice.blocks ≠ reorderOnce.blocks ∧
      reorderTwice.blocks.map Prod.fst ≠ reorderOnce.blocks.map Prod.fst ∧
      reorderTwice.blocks.Perm reorderOnce.blocks ∧
      (runRows rev1 rev2 reorderDiff.anchorText (reorderDiff.rows.drop 1) accR
        initLocals).isLeft = true ∧
      (runRows rev1 rev2 reorderDiff.anchorText (reorderDiff.rows.drop 1) reorderOnce
        initLocals).isLeft = true ∧
      ∀ tds ∈ reorderDiff.rows.drop 1,
        is_modification_tr tds = some false ∧ is_moved_right_tr tds = false ∧
          is_moved_left_tr tds = false) := by
  exact ⟨⟨by decide, by decide, by decide⟩,
    by decide, by decide, by decide, by decide, by decide, by decide⟩

/-- C8 amended: re-application after a first application leaves the block
store, the alias map, and the derived corpus unchanged — only the revision
log gains an entry — in each of these regimes: (1) diffs of regular
(non-moved) added rows and line-number rows, whose writes are re-applied
verbatim and absorbed; (2) diffs whose rows are all settled with respect to
the once-applied state — each non-empty unedited text still stored, each
firing removal hash absent from the alias map — so the re-run writes nothing
(rows that raise abort the revision with the store intact); (3) diffs of
unedited and line-number rows only, after a successful first application,
whose first run itself settles every row; (4) diffs of removal and
line-number rows only, whose first run unmaps every firing hash.
Modification and moved rows are excluded, and a remove-and-re-add diff shows
the settledness guard is needed even without them. -/
theorem c8_reapply_no_op (prev curr : Revision) (d : Diff) (acc : Intermediate)
    (hok : (∀ tds ∈ d.rows.drop 1, RowOk tds) ∨
      (∀ tds ∈ d.rows.drop 1, SettledRow (parse_diff prev curr d acc) tds) ∨
      ((∀ tds ∈ d.rows.drop 1, UneditedLike tds) ∧
        (runRows prev curr d.anchorText (d.rows.drop 1) acc initLocals).isLeft = true) ∨
      (∀ tds ∈ d.rows.drop 1, RemovalLike tds)) :
    (parse_diff prev curr d (parse_diff prev curr d acc)).blocks =
        (parse_diff prev curr d acc).blocks ∧
      (parse_diff prev curr d (parse_diff prev curr d acc)).hash_lookup =
        (parse_diff prev curr d acc).hash_lookup ∧
      convert_intermediate_to_corpus (parse_diff prev curr d (parse_diff prev curr d acc)) =
        convert_intermediate_to_corpus (parse_diff prev curr d acc) ∧
      ∃ entry, (parse_diff prev curr d (parse_diff prev curr d acc)).revisions =
        (parse_diff prev curr d acc).revisions ++ [entry] := by
  rcases hok with hok | h2 | ⟨h3, hsucc⟩ | h4
  · have h1 := runRows_okWrites prev curr d.anchorText (d.rows.drop 1) initLocals none acc
      hok (ready_init acc)
    have h2 := runRows_okWrites prev curr d.anchorText (d.rows.drop 1) initLocals none
      (parse_diff prev curr d acc) hok (ready_init _)
    have hs1 := parse_diff_inl prev curr d acc _ _ h1
    have hs2 := parse_diff_inl prev curr d (parse_diff prev curr d acc) _ _ h2
    have hb : (parse_diff prev curr d (parse_diff prev curr d acc)).blocks =
        (parse_diff prev curr d acc).blocks := by
      rw [hs2, hs1]
      simp [applyW_idem]
    have hl : (parse_diff prev curr d (parse_diff prev curr d acc)).hash_lookup =
        (parse_diff prev curr d acc).hash_lookup := by
      rw [hs2, hs1]
      simp [applyW_idem]
    refine ⟨hb, hl, convert_congr _ _ hb hl, ?_⟩
    exact ⟨_, by rw [hs2]⟩
  · exact reapply_settled_case prev curr d acc h2
  · rcases hrl : runRows prev curr d.anchorText (d.rows.drop 1) acc initLocals
      with ⟨S1, L1⟩ | e
    · have hset := runRows_unedited_settled prev curr d.anchorText (d.rows.drop 1)
        acc initLocals S1 L1 h3 hrl
      have hps := parse_diff_inl prev curr d acc S1 L1 hrl
      refine reapply_settled_case prev curr d acc (fun tds ht => ?_)
      exact settledRow_ext S1 (parse_diff prev curr d acc) (by rw [hps]) (by rw [hps])
        tds (hset tds ht)
    · rw [hrl] at hsucc
      exact absurd hsucc (by simp)
  · obtain ⟨S1, L1, hrl, _, habs⟩ := runRows_removal_absent prev curr d.anchorText
      (d.rows.drop 1) acc initLocals h4
    have hps := parse_diff_inl prev curr d acc S1 L1 hrl
    refine reapply_settled_case prev curr d acc (fun tds ht => ?_)
    refine settledRow_ext S1 (parse_diff prev curr d acc) (by rw [hps]) (by rw [hps]) tds ?_
    rcases h4 tds ht with ⟨hu, hnc, hrem⟩ | hlin
    · exact Or.inr (Or.inl ⟨hu, hnc, hrem, fun hlen hml => habs tds ht hrem hlen hml⟩)
    · exact Or.inr (Or.inr hlin)

/-- Witness for C8 amended (the settled regime): a diff of one already-stored
unedited heading row and one never-stored removal row, re-applied. -/
theorem c8_reapply_no_op_witness :
    (parse_diff rev1 rev2 settledDiff (parse_diff rev1 rev2 settledDiff accW)).blocks =
      (parse_diff rev1 rev2 settledDiff accW).blocks :=
  (c8_reapply_no_op rev1 rev2 settledDiff accW (Or.inr (Or.inl (by decide)))).1

end RevisionPipeline
